import Mathlib

/-!
Verification of the defensive data-normalization core of `x-to-script`.

The Python code manipulates heterogeneous JSON-like dictionaries.  We model
Python/JSON values by `JValue` (numbers restricted to integers, which covers
every value the verified code paths construct or compare), Python dictionaries
by insertion-ordered association lists, and Python truthiness explicitly.
Functions that can raise are modelled with `Except`/`Option`; functions whose
Python source wraps everything in a catch-all `except` returning a default are
modelled as total functions returning that default on the error paths.
-/

namespace XToScript

/-- A JSON-like Python value.  `jnull` is Python `None`. -/
inductive JValue : Type where
  | jnull : JValue
  | jbool : Bool → JValue
  | jnum : Int → JValue
  | jstr : String → JValue
  | jarr : List JValue → JValue
  | jobj : List (String × JValue) → JValue
  deriving Repr, Inhabited

open JValue

/-- Lookup of the first binding of `key` (Python dicts have unique keys;
parsing and updating below preserve that). -/
def dictGet : List (String × JValue) → String → Option JValue
  | [], _ => none
  | (k, v) :: rest, key => if k = key then some v else dictGet rest key

/-- Python `d.get(key, dflt)`. -/
def pyGetD (d : List (String × JValue)) (key : String) (dflt : JValue) : JValue :=
  (dictGet d key).getD dflt

/-- Python `d.get(key)` (returns `None` when absent). -/
def pyGet (d : List (String × JValue)) (key : String) : JValue :=
  pyGetD d key jnull

/-- Python `key in d`. -/
def hasKey (d : List (String × JValue)) (key : String) : Bool :=
  (dictGet d key).isSome

/-- Python `d[key] = v`: replace the binding in place, else append
(Python dicts preserve insertion order). -/
def dictSet : List (String × JValue) → String → JValue → List (String × JValue)
  | [], key, v => [(key, v)]
  | (k, w) :: rest, key, v =>
    if k = key then (key, v) :: rest else (k, w) :: dictSet rest key v

/-- Python truthiness of a value. -/
def truthy : JValue → Bool
  | jnull => false
  | jbool b => b
  | jnum n => n != 0
  | jstr s => s.length != 0
  | jarr xs => !xs.isEmpty
  | jobj kvs => !kvs.isEmpty

/-- Python `a or b` (value-returning). -/
def pyOr (a b : JValue) : JValue := if truthy a then a else b

def asObj : JValue → Option (List (String × JValue))
  | jobj d => some d
  | _ => none

def asArr : JValue → Option (List JValue)
  | jarr xs => some xs
  | _ => none

def asInt : JValue → Option Int
  | jnum n => some n
  | _ => none

def isObjB : JValue → Bool
  | jobj _ => true
  | _ => false

/-! ## `thread_parser._extract_tweet_id`

Source: `src/thread_parser.py`, lines 19-36.  A chain of `tweet_data.get(k)`
joined by Python `or`; on a truthy non-dict argument the attribute access
`.get` raises `AttributeError` (there is no `try` in this function), which we
surface as `Except.error`. -/

def extract_tweet_id (tweet_data : JValue) : Except String JValue :=
  if !truthy tweet_data then .ok jnull
  else
    match tweet_data with
    | jobj d =>
      .ok <| pyOr (pyGet d "id_str") <| pyOr (pyGet d "rest_id") <| pyOr (pyGet d "id") <|
        pyOr (pyGet d "tweetId") <| pyOr (pyGet d "tweet_id") <| pyOr (pyGet d "postId") <|
        pyOr (pyGet d "post_id") <| pyOr (pyGet d "statusId") <| pyOr (pyGet d "status_id") <|
        pyGet d "replyId"
    | _ => .error "AttributeError"

/-- The fixed priority order of id keys named by the specification. -/
def idKeys : List String :=
  ["id_str", "rest_id", "id", "tweetId", "tweet_id", "postId", "post_id",
   "statusId", "status_id", "replyId"]

/-- Spec reading of C1 as stated: value of the first id key that is present
with a non-null value; `none` when no key has such a value. -/
def firstNonNullIdSpec (d : List (String × JValue)) : Option JValue :=
  (idKeys.filterMap fun k =>
    match dictGet d k with
    | some jnull => none
    | some v => some v
    | none => none).head?

/-- Amended reading: value of the first id key whose value is truthy; when no
key has a truthy value the chain returns the value of `replyId` (necessarily
falsy) when present, else `None` — callers test the result for truthiness. -/
def firstTruthyIdSpec (d : List (String × JValue)) : JValue :=
  match (idKeys.filterMap fun k =>
    let v := pyGet d k
    if truthy v then some v else none).head? with
  | some v => v
  | none => pyGet d "replyId"

/-! ## `thread_parser._extract_author_screen_name`

Source: `src/thread_parser.py`, lines 38-95.  Sequential early-return steps;
the whole body is wrapped in `try/except` returning `None`, and on truthy
non-dict input every step either falls through or raises (caught), so the
function is total with non-dict inputs mapping to `None`.  The
`user_mentions` step of the source (lines 66-72) has an empty body (`pass`)
and no observable effect, so it has no counterpart here. -/

/-- Python `s.split("/")` then the checks of lines 76-80: a candidate
username from a reply URL, with the excluded path segments rejected. -/
def replyUrlName (s : String) : Option String :=
  let parts := s.splitOn "/"
  if 4 ≤ parts.length ∧ (parts.getD 2 "" = "x.com" ∨ parts.getD 2 "" = "twitter.com") then
    let u := parts.getD 3 ""
    if u ≠ "undefined" ∧ u ≠ "status" ∧ u ≠ "i" ∧ u ≠ "web" then some u else none
  else none

/-- The `direct_fields` loop (lines 60-63): first listed key bound to a
string value (`isinstance(..., str)`). -/
def firstStrField (d : List (String × JValue)) : List String → Option String
  | [] => none
  | f :: fs =>
    match dictGet d f with
    | some (jstr s) => some s
    | _ => firstStrField d fs

/-- Step of line 83-84: `author` bound to a plain string. -/
def authorStrStep (d : List (String × JValue)) : JValue :=
  match dictGet d "author" with
  | some (jstr s) => jstr s
  | _ => jnull

/-- Step of lines 74-80: parse a username out of `replyUrl`; on failure fall
through to the author-string step. -/
def replyUrlStep (d : List (String × JValue)) : JValue :=
  match dictGet d "replyUrl" with
  | some (jstr s) =>
    match replyUrlName s with
    | some u => jstr u
    | none => authorStrStep d
  | _ => authorStrStep d

/-- Step of lines 60-63 and following. -/
def flatStep (d : List (String × JValue)) : JValue :=
  match firstStrField d ["username", "user_screen_name", "screen_name", "userName"] with
  | some s => jstr s
  | none => replyUrlStep d

/-- Step of lines 51-57: when `author` is a dict the function returns the
`or`-chain of its three fields unconditionally (no fall-through). -/
def authorDictStep (d : List (String × JValue)) : JValue :=
  match dictGet d "author" with
  | some (jobj a) => pyOr (pyGet a "screen_name") (pyOr (pyGet a "username") (pyGet a "name"))
  | _ => flatStep d

def extract_author_screen_name (td : JValue) : JValue :=
  if !truthy td then jnull
  else
    match td with
    | jobj d =>
      match dictGet d "user" with
      | some (jobj u) =>
        if hasKey u "screen_name" then pyGet u "screen_name" else authorDictStep d
      | _ => authorDictStep d
    | _ => jnull

/-- Claimed step 3: flat string keys, then the `replyUrl` segment, then fail. -/
def authorClaimFlat (d : List (String × JValue)) : JValue :=
  match firstStrField d ["username", "user_screen_name", "screen_name", "userName"] with
  | some s => jstr s
  | none =>
    match dictGet d "replyUrl" with
    | some (jstr s) =>
      match replyUrlName s with
      | some u => jstr u
      | none => jnull
    | _ => jnull

/-- Claimed step 2: the `author` dict fields, falling through when none is
truthy. -/
def authorClaimDict (d : List (String × JValue)) : JValue :=
  match dictGet d "author" with
  | some (jobj a) =>
    let v := pyOr (pyGet a "screen_name") (pyOr (pyGet a "username") (pyGet a "name"))
    if truthy v then v else authorClaimFlat d
  | _ => authorClaimFlat d

/-- Author resolution as claim C8 states it: nested `user.screen_name`, then
the `author` dict fields, then the flat keys, then the `replyUrl` segment;
`jnull` when all of these fail (the caller then substitutes the sentinel). -/
def authorClaimSpec (d : List (String × JValue)) : JValue :=
  match dictGet d "user" with
  | some (jobj u) =>
    if hasKey u "screen_name" then pyGet u "screen_name" else authorClaimDict d
  | _ => authorClaimDict d

/-- Tail of the amended chain: `author` dict fields (no fall-through), flat
string keys, `replyUrl` segment, then `author` as a plain string. -/
def authorAmendedTail (d : List (String × JValue)) : JValue :=
  match dictGet d "author" with
  | some (jobj a) => pyOr (pyGet a "screen_name") (pyOr (pyGet a "username") (pyGet a "name"))
  | _ =>
    match firstStrField d ["username", "user_screen_name", "screen_name", "userName"] with
    | some s => jstr s
    | none =>
      match dictGet d "replyUrl" with
      | some (jstr s) =>
        match replyUrlName s with
        | some u => jstr u
        | none => authorStrStep d
      | _ => authorStrStep d

/-- Author resolution as the amended C8 states it: the same chain but (a) a
dict-valued `author` ends the search even when its three fields are all
falsy, and (b) a string-valued `author` is consulted after `replyUrl`. -/
def authorAmendedSpec (d : List (String × JValue)) : JValue :=
  match dictGet d "user" with
  | some (jobj u) =>
    if hasKey u "screen_name" then pyGet u "screen_name" else authorAmendedTail d
  | _ => authorAmendedTail d

/-! ## `Scraper.extract_video_url`

Source: `src/scraper.py`, lines 180-276.  The whole body is wrapped in a
catch-all `except` returning `None`; the model runs the body in
`Except Unit` and the wrapper collapses errors to `jnull`.  A Python
exception aborts the computation and discards all locals, and the function
has no other side effects, so collapsing an error to `jnull` at the point
where Python would raise is observationally faithful. -/

/-- Substring test on character lists (Python `needle in hay` for strings). -/
def listIsSub (needle : List Char) : List Char → Bool
  | [] => needle.isEmpty
  | c :: t => needle.isPrefixOf (c :: t) || listIsSub needle t

def pyContains (hay needle : String) : Bool := listIsSub needle.data hay.data

/-- Python `needle in v` for a string needle: dict key test, substring test,
list membership, else `TypeError`. -/
def pyIn (needle : String) : JValue → Except Unit Bool
  | jobj d => .ok (hasKey d needle)
  | jstr s => .ok (pyContains s needle)
  | jarr xs => .ok (xs.any fun x => match x with | jstr t => t = needle | _ => false)
  | _ => .error ()

/-- Python `v[key]` for a string key: dict lookup (`KeyError` when absent),
else `TypeError`. -/
def pyIndex (v : JValue) (key : String) : Except Unit JValue :=
  match v with
  | jobj d => match dictGet d key with
    | some w => .ok w
    | none => .error ()
  | _ => .error ()

/-- Python treats `bool` as an `int` subclass in comparisons and arithmetic. -/
def asIntPy : JValue → Option Int
  | jnum n => some n
  | jbool b => some (if b then 1 else 0)
  | _ => none

def expectInt (v : JValue) : Except Unit Int :=
  match asIntPy v with
  | some n => .ok n
  | none => .error ()

def iterObjsGo : List JValue → Except Unit (List (List (String × JValue)))
  | [] => .ok []
  | jobj d :: rest => do pure (d :: (← iterObjsGo rest))
  | _ :: _ => .error ()

/-- Iterating a Python value whose elements are immediately used as dicts.
A non-dict element raises at its first `.get`, so any such element (and any
non-iterable) collapses to an error; empty strings/dicts iterate to nothing. -/
def iterObjs : JValue → Except Unit (List (List (String × JValue)))
  | jarr xs => iterObjsGo xs
  | jstr s => if s.length = 0 then .ok [] else .error ()
  | jobj kvs => if kvs.isEmpty then .ok [] else .error ()
  | _ => .error ()

/-- Stable insertion for a descending sort: an element earlier in the
original list goes before every element whose key is not larger (Python's
`list.sort(key=..., reverse=True)` is stable). -/
def insertDescBy (key : α → Int) (x : α) : List α → List α
  | [] => [x]
  | y :: ys => if key y ≤ key x then x :: y :: ys else y :: insertDescBy key x ys

def sortDescBy (key : α → Int) : List α → List α
  | [] => []
  | x :: xs => insertDescBy key x (sortDescBy key xs)

/-- First element attaining the maximum key (ties go to the earlier one). -/
def firstMaxBy (key : α → Int) : List α → Option α
  | [] => none
  | x :: xs =>
    match firstMaxBy key xs with
    | some m => if key m ≤ key x then some x else some m
    | none => some x

/-- The MP4 filter of line 202: `v.get('content_type') == 'video/mp4'`. -/
def isMp4ContentType (v : List (String × JValue)) : Bool :=
  match pyGet v "content_type" with
  | jstr s => s = "video/mp4"
  | _ => false

/-- Sort of line 206: Python applies the key to every element but compares
only when the list has two or more elements; comparing a non-integer
bitrate raises. -/
def sortByBitrate (mp4s : List (List (String × JValue))) :
    Except Unit (List (List (String × JValue))) :=
  if mp4s.length ≤ 1 then .ok mp4s
  else
    match mp4s.mapM (fun v => asIntPy (pyGetD v "bitrate" (jnum 0))) with
    | some ks => .ok ((sortDescBy Prod.snd (mp4s.zip ks)).map Prod.fst)
    | none => .error ()

/-- Lines 197-220: one `mediaDetails` entry, threading the
`(best_video_url, best_bitrate)` state. -/
def processMediaEntry (st : JValue × Int) (m : List (String × JValue)) :
    Except Unit (JValue × Int) := do
  let isVideo : Bool := match pyGet m "type" with | jstr s => s = "video" | _ => false
  if isVideo ∧ hasKey m "video_info" then
    let vi := pyGet m "video_info"
    let hasVariants ← pyIn "variants" vi
    if hasVariants then
      let variants ← pyIndex vi "variants"
      let vs ← iterObjs variants
      let mp4s := vs.filter isMp4ContentType
      if mp4s.isEmpty then pure st
      else do
        let sorted ← sortByBitrate mp4s
        let highest := sorted.headD []
        let b ← expectInt (pyGetD highest "bitrate" (jnum 0))
        let url := pyGet highest "url"
        if st.2 < b ∧ truthy url then
          match url with
          | jstr _ => pure (url, b)
          | _ => .error ()
        else pure st
    else pure st
  else pure st

def resolutionTokens : List (String × Int) :=
  [("3840x2160", 4000), ("1920x1080", 3000), ("1280x720", 2000),
   ("640x360", 1000), ("480x270", 500)]

/-- Lines 237-250: `get_resolution_priority`; requires a string `src` (the
substring tests raise otherwise) and falls back to the raw bitrate value. -/
def getResolutionPriority (v : List (String × JValue)) : Except Unit JValue :=
  match pyGetD v "src" (jstr "") with
  | jstr s =>
    match resolutionTokens.find? (fun p => pyContains s p.1) with
    | some p => .ok (jnum p.2)
    | none => .ok (pyGetD v "bitrate" (jnum 0))
  | _ => .error ()

/-- The MP4 filter of line 232 (`type`, not `content_type`, in this shape). -/
def isMp4Type (v : List (String × JValue)) : Bool :=
  match pyGet v "type" with
  | jstr s => s = "video/mp4"
  | _ => false

/-- Sort of line 252 with `get_resolution_priority` keys. -/
def sortByResolution (mp4s : List (List (String × JValue))) :
    Except Unit (List (List (String × JValue))) := do
  let keys ← mp4s.mapM getResolutionPriority
  if mp4s.length ≤ 1 then pure mp4s
  else
    match keys.mapM asIntPy with
    | some ks => pure ((sortDescBy Prod.snd (mp4s.zip ks)).map Prod.fst)
    | none => .error ()

/-- Lines 228-269: the fallback `video.variants` branch. -/
def fallbackVideoBranch (td : JValue) : Except Unit JValue := do
  let hasVideo ← pyIn "video" td
  if hasVideo then
    let v ← pyIndex td "video"
    if truthy v then
      let hasVariants ← pyIn "variants" v
      if hasVariants then
        let variants ← pyIndex v "variants"
        let vs ← iterObjs variants
        let mp4s := vs.filter isMp4Type
        if mp4s.isEmpty then
          if truthy variants then
            match variants with
            | jarr (jobj o :: _) => pure (pyGet o "src")
            | _ => .error ()
          else pure jnull
        else do
          let sorted ← sortByResolution mp4s
          let selected := sorted.headD []
          let srcUrl := pyGet selected "src"
          if truthy srcUrl then
            match srcUrl with
            | jstr _ => pure srcUrl
            | _ => .error ()
          else
            if truthy variants then
              match variants with
              | jarr (jobj o :: _) => pure (pyGet o "src")
              | _ => .error ()
            else pure jnull
      else pure jnull
    else pure jnull
  else pure jnull

def extract_video_url_core (td : JValue) : Except Unit JValue := do
  let hasMedia ← pyIn "mediaDetails" td
  let st ←
    if hasMedia then do
      let md ← pyIndex td "mediaDetails"
      let entries ← iterObjs md
      entries.foldlM processMediaEntry (jnull, 0)
    else pure (jnull, (0 : Int))
  if truthy st.1 ∧ 0 < st.2 then pure st.1
  else fallbackVideoBranch td

/-- `Scraper.extract_video_url`: catch-all wrapper returning `None`. -/
def extract_video_url (td : JValue) : JValue :=
  match extract_video_url_core td with
  | .ok v => v
  | .error _ => jnull

/-! ## `thread_parser.parse_tweet_and_replies_data`

Source: `src/thread_parser.py`, lines 97-195.  This function has no
`try/except`, so exceptions from `_extract_tweet_id` (truthy non-dict
argument) and from the author fallback of line 125
(`tweet_data.get('user', ...).get('id_str')` with a non-dict `user`)
propagate to the caller; they are modelled as `Except.error`.  The Python
signature allows `replies_data = None`, handled as an empty list (lines
152-154); the model takes the list directly. -/

structure VideoEntry where
  tweet_id : JValue
  video_url : JValue

structure ReplyStruct where
  reply_id : JValue
  reply_author_screen_name : JValue
  reply_text_content : JValue
  reply_videos : List VideoEntry

structure ParsedData where
  user_screen_name : JValue
  thread_id : JValue
  thread_text_content : JValue
  thread_videos : List VideoEntry
  replies : List ReplyStruct

/-- Lines 156-189: one reply; `none` = skipped (falsy data or falsy id). -/
def processReply (r : JValue) : Except String (Option ReplyStruct) :=
  if !truthy r then .ok none
  else do
    let rid ← extract_tweet_id r
    let rauthor := extract_author_screen_name r
    if !truthy rid then pure none
    else
      let author := if truthy rauthor then rauthor else jstr "unknown_reply_author"
      let v := extract_video_url r
      pure (some ⟨rid, author, r, if truthy v then [⟨rid, v⟩] else []⟩)

def processReplies : List JValue → Except String (List ReplyStruct)
  | [] => .ok []
  | r :: rest => do
    match ← processReply r with
    | some s => pure (s :: (← processReplies rest))
    | none => processReplies rest

/-- Line 125: `tweet_data.get('user', ...).get('id_str') or "unknown_user"`,
the only raise point of the author fallback. -/
def mainAuthorFallback (tweet_data : JValue) : Except String JValue :=
  match tweet_data with
  | jobj d =>
    match dictGet d "user" with
    | some (jobj u) => .ok (pyOr (pyGet u "id_str") (jstr "unknown_user"))
    | some _ => .error "AttributeError"
    | none => .ok (pyOr jnull (jstr "unknown_user"))
  | _ => .error "AttributeError"

def parse_tweet_and_replies_data (tweet_data : JValue) (replies_data : List JValue) :
    Except String (Option ParsedData) :=
  if !truthy tweet_data then .ok none
  else do
    let a0 := extract_author_screen_name tweet_data
    let mid ← extract_tweet_id tweet_data
    let author ← if !truthy a0 then mainAuthorFallback tweet_data else pure a0
    if !truthy mid then pure none
    else
      let v := extract_video_url tweet_data
      let reps ← processReplies replies_data
      pure (some ⟨author, mid, tweet_data,
        if truthy v then [⟨mid, v⟩] else [], reps⟩)

/-- Spec-side description of reply processing on dict (or falsy) replies:
which replies survive and what their record looks like. -/
def replySpecOk (r : JValue) : Option ReplyStruct :=
  if !truthy r then none
  else
    match extract_tweet_id r with
    | .ok rid =>
      if truthy rid then
        let ra := extract_author_screen_name r
        let v := extract_video_url r
        some ⟨rid, if truthy ra then ra else jstr "unknown_reply_author", r,
          if truthy v then [⟨rid, v⟩] else []⟩
      else none
    | .error _ => none

/-! ## Model fallback policy

Source: `src/script_generator.py`, lines 885-949 (`generate_script`).  The
external LLM call is abstracted as `behav : String → CallResult`.  The loop
tries candidates in order; the trace of invoked candidates is returned
alongside the result. -/

inductive CallResult where
  | success (resp : String)
  | failure (msg : String)

/-- Line 930: the transient-provider substrings (case-sensitive). -/
def isTransientProvider (msg : String) : Bool :=
  pyContains msg "502" || pyContains msg "Bad Gateway" ||
    pyContains msg "Provider returned error"

def strLower (s : String) : String := s.map Char.toLower

/-- Line 933: `"rate limit" in error_msg.lower()`. -/
def isRateLimited (msg : String) : Bool := pyContains (strLower msg) "rate limit"

/-- Lines 886-891: the candidate list, primary first. -/
def fallback_models (primary : String) : List String :=
  [primary, "qwen/qwen-2.5-72b-instruct:free",
   "microsoft/phi-3-medium-4k-instruct:free", "deepseek/deepseek-r1-0528:free"]

/-- Lines 893-899: remove duplicates while preserving order. -/
def dedupGo (seen : List String) : List String → List String
  | [] => []
  | m :: rest => if m ∈ seen then dedupGo seen rest else m :: dedupGo (m :: seen) rest

def dedupPreservingOrder (l : List String) : List String := dedupGo [] l

/-- Lines 901-949: the attempt loop.  After the loop, a `None` response
re-raises `last_error` (lines 943-949).  Returns the result together with
the list of invoked candidates. -/
def fallbackLoop (behav : String → CallResult) (total : Nat) :
    List String → Nat → Option String → Except String String × List String
  | [], _, last =>
    match last with
    | some e => (.error e, [])
    | none => (.error "All models failed without specific error", [])
  | m :: rest, attempt, _ =>
    match behav m with
    | .success r => (.ok r, [m])
    | .failure e =>
      let next := fallbackLoop behav total rest (attempt + 1) (some e)
      if isTransientProvider e then (next.1, m :: next.2)
      else if isRateLimited e then (next.1, m :: next.2)
      else if attempt < total - 1 then (next.1, m :: next.2)
      else (.error e, [m])

def generate_with_fallback (behav : String → CallResult) (primary : String) :
    Except String String × List String :=
  let ms := dedupPreservingOrder (fallback_models primary)
  fallbackLoop behav ms.length ms 0 none

/-! ## `BatchScriptGenerator`

Source: `src/batch_script_generator.py`, lines 78-222.  The per-thread work
(`process_thread_directory` + `save_script`) and the existence of
`tiktok_script.json` are external inputs, abstracted per thread.  The
semaphore-bounded `asyncio.gather` updates three independent counters, each
strictly after its own task's work in a single-threaded cooperative loop,
and collects results in input order, so the final statistics equal those of
the sequential fold. -/

inductive GenOutcome where
  | saveOk
  | saveFail
  | genFail
  | raised

structure ThreadTask where
  scriptExists : Bool
  outcome : GenOutcome

structure BatchStats where
  processed : Nat
  success : Nat
  errors : Nat
  deriving Repr, DecidableEq

/-- Lines 78-98. -/
def should_process_thread (scriptExists force : Bool) : Bool :=
  if force then true
  else if !scriptExists then true
  else false

/-- Lines 100-154: counter updates and the returned boolean. -/
def process_single_thread (force : Bool) (st : BatchStats) (t : ThreadTask) :
    BatchStats × Bool :=
  let st1 := { st with processed := st.processed + 1 }
  if !should_process_thread t.scriptExists force then (st1, true)
  else
    match t.outcome with
    | .saveOk => ({ st1 with success := st1.success + 1 }, true)
    | .saveFail => ({ st1 with errors := st1.errors + 1 }, false)
    | .genFail => ({ st1 with errors := st1.errors + 1 }, false)
    | .raised => ({ st1 with errors := st1.errors + 1 }, false)

def processAllGo (force : Bool) (st : BatchStats) : List ThreadTask → BatchStats × List Bool
  | [] => (st, [])
  | t :: rest =>
    let p := process_single_thread force st t
    let q := processAllGo force p.1 rest
    (q.1, p.2 :: q.2)

/-- Lines 156-218: reset counters, process every found thread, return the
statistics (empty directory list short-circuits to zeros, line 185-187). -/
def process_all_threads (force : Bool) (threads : List ThreadTask) :
    BatchStats × List Bool :=
  if threads.isEmpty then (⟨0, 0, 0⟩, [])
  else processAllGo force ⟨0, 0, 0⟩ threads

/-- A thread is skipped exactly when its script exists and regeneration is
not forced. -/
def isSkipped (force : Bool) (t : ThreadTask) : Bool :=
  t.scriptExists && !force

/-! ## `ScriptGenerator.validate_and_enhance_timing`

Source: `src/script_generator.py`, lines 441-499, and
`create_enhanced_visual_timeline`, lines 501-585, with
`map_cue_type_to_visual_type` (587-604) and `update_tweet_references`
(606-626).  Python mutates the dictionaries in place and the surrounding
`try/except` returns the object in its partially-mutated state, so the
model threads the script dictionary through an `Except` whose error value
is that partially-mutated state.  `section = script.get(name, ...)` aliases
the stored section, so mutations are written back exactly when the key is
present. -/

def sectionNames : List String := ["hook", "intro", "explainer"]

/-- Lines 463-470: default durations. -/
def sectionDefault : String → Int
  | "hook" => 15
  | "intro" => 15
  | _ => 30

/-- Lines 485-488 once the (possibly shifted) timestamp is in place:
`max_duration` clamp.  A non-integer `cue_duration` raises at the
comparison, after the timestamp store. -/
def clampCueDuration (cue1 : List (String × JValue)) (tNew start D : Int)
    (d0J : JValue) : Except (List (String × JValue)) (List (String × JValue)) :=
  let maxd := start + D - tNew
  match asIntPy d0J with
  | none => .error cue1
  | some d0 => .ok (if maxd < d0 then dictSet cue1 "duration" (jnum maxd) else cue1)

/-- Lines 475-488: one visual cue.  Error = state of the cue when an
exception escapes (missing `timestamp` key in the in-bounds branch raises
`KeyError` at line 486; non-integer fields raise `TypeError`). -/
def runCue (start D : Int) (cue : List (String × JValue)) :
    Except (List (String × JValue)) (List (String × JValue)) :=
  let t0J := pyGetD cue "timestamp" (jnum 0)
  let d0J := pyGetD cue "duration" (jnum 3)
  match asIntPy t0J with
  | none => .error cue
  | some t0 =>
    if t0 < start then
      clampCueDuration (dictSet cue "timestamp" (jnum start)) start start D d0J
    else if start + D ≤ t0 then
      match asIntPy d0J with
      | none => .error cue
      | some d0 =>
        let tNew := start + D - d0
        clampCueDuration (dictSet cue "timestamp" (jnum tNew)) tNew start D d0J
    else
      if hasKey cue "timestamp" then clampCueDuration cue t0 start D d0J
      else .error cue

/-- The cue loop; error = the cue list with all mutations made before the
exception (a non-dict cue raises at its `.get`). -/
def runCues (start D : Int) : List JValue → Except (List JValue) (List JValue)
  | [] => .ok []
  | c :: rest =>
    match c with
    | jobj cd =>
      match runCue start D cd with
      | .ok cd' =>
        match runCues start D rest with
        | .ok rest' => .ok (jobj cd' :: rest')
        | .error restP => .error (jobj cd' :: restP)
      | .error cdP => .error (jobj cdP :: rest)
    | _ => .error (c :: rest)

/-- Lines 459-490: one section of the loop; error = the whole script in its
state when an exception escapes. -/
def runSection (script : List (String × JValue)) (name : String) (start : Int) :
    Except (List (String × JValue)) (List (String × JValue) × Int) :=
  match pyGetD script name (jobj []) with
  | jobj sec =>
    match asIntPy (pyGetD sec "duration_seconds" (jnum 0)) with
    | none => .error script
    | some d0 =>
      let D := if d0 ≤ 0 then sectionDefault name else d0
      let sec1 := if d0 ≤ 0 then dictSet sec "duration_seconds" (jnum D) else sec
      let script1 := if hasKey script name then dictSet script name (jobj sec1) else script
      match pyGetD sec1 "visual_cues" (jarr []) with
      | jarr cs =>
        match runCues start D cs with
        | .ok cs' =>
          let sec2 := if hasKey sec1 "visual_cues" then dictSet sec1 "visual_cues" (jarr cs') else sec1
          let script2 := if hasKey script name then dictSet script name (jobj sec2) else script1
          .ok (script2, start + D)
        | .error csP =>
          let sec2 := if hasKey sec1 "visual_cues" then dictSet sec1 "visual_cues" (jarr csP) else sec1
          let script2 := if hasKey script name then dictSet script name (jobj sec2) else script1
          .error script2
      | jstr s => if s.length = 0 then .ok (script1, start + D) else .error script1
      | jobj kvs => if kvs.isEmpty then .ok (script1, start + D) else .error script1
      | _ => .error script1
  | _ => .error script

/-- Lines 597-604. -/
def map_cue_type_to_visual_type (cue_type : String) : String :=
  if cue_type = "tweet_display" then "main_tweet"
  else if cue_type = "reply_highlight" then "reply_tweet"
  else if cue_type = "text_overlay" then "text_overlay"
  else if cue_type = "transition" then "transition"
  else if cue_type = "effect" then "effect"
  else "text_overlay"

/-- Lines 606-626.  The references dict is always built by this function,
so `usage_count`/`display_timestamps` have their constructed types; the
fall-through arms are unreachable. -/
def update_tweet_references (refs : List (String × JValue)) (tid : String)
    (ts : Int) : List (String × JValue) :=
  let refs1 :=
    if hasKey refs tid then refs
    else dictSet refs tid (jobj
      [("usage_count", jnum 0), ("display_timestamps", jarr []),
       ("display_style", jstr "full_tweet"), ("highlight_text", jarr []),
       ("author_focus", jbool false), ("media_included", jbool false)])
  match dictGet refs1 tid with
  | some (jobj e) =>
    let e1 := match dictGet e "usage_count" with
      | some (jnum n) => dictSet e "usage_count" (jnum (n + 1))
      | _ => e
    let e2 := match dictGet e1 "display_timestamps" with
      | some (jarr l) => dictSet e1 "display_timestamps" (jarr (l ++ [jnum ts]))
      | _ => e1
    dictSet refs1 tid (jobj e2)
  | _ => refs1

/-- State of the timeline build: events, references, transitions, offset. -/
structure CeltSt where
  events : List JValue
  refs : List (String × JValue)
  transitions : List JValue
  current : Int

/-- Lines 532-562: one timeline event.  A cue id that is truthy but not a
string would become a non-string dictionary key (hashable numbers) or raise
(unhashable lists/dicts); string-keyed `jobj` cannot represent the former,
so both are modelled as the error path — no theorem below exercises
non-string ids. -/
def celtCue (sec : List (String × JValue)) (current : Int)
    (refs : List (String × JValue)) (c : List (String × JValue)) :
    Except Unit (JValue × List (String × JValue)) := do
  let tsOff ← expectInt (pyGetD c "timestamp" (jnum 0))
  let ts := current + tsOff
  let durJ := pyGetD c "duration" (jnum 3)
  let vtype ←
    match pyGetD c "type" (jstr "") with
    | jstr s => pure (map_cue_type_to_visual_type s)
    | jarr _ => .error ()
    | jobj _ => .error ()
    | _ => pure "text_overlay"
  let content := pyGetD c "content" (jstr "")
  let pres ←
    match pyGetD c "presentation" (jobj []) with
    | jobj p => pure (pyGetD p "animation" (jstr "fade_in"), pyGetD p "position" (jstr "center"))
    | _ => .error ()
  let event0 := jobj
    [("timestamp", jnum ts), ("duration", durJ), ("visual_type", jstr vtype),
     ("content", content),
     ("presentation_details", jobj
       [("animation_in", pres.1), ("animation_out", jstr "fade_out"),
        ("position", pres.2), ("size", jstr "medium")])]
  let tidJ := pyGet c "tweet_id"
  let er1 ←
    if truthy tidJ then
      match event0, tidJ with
      | jobj e0, jstr tid => pure (dictSet e0 "tweet_id" tidJ, update_tweet_references refs tid ts)
      | _, _ => .error ()
    else
      match event0 with
      | jobj e0 => pure (e0, refs)
      | _ => .error ()
  let ridJ := pyGet c "reply_id"
  let er2 ←
    if truthy ridJ then
      match ridJ with
      | jstr rid => pure (dictSet er1.1 "reply_id" ridJ, update_tweet_references er1.2 rid ts)
      | _ => .error ()
    else pure er1
  let narr ←
    match pyGetD sec "text" (jstr "") with
    | jstr s => pure (jstr (s.take 100))
    | jarr xs => pure (jarr (xs.take 100))
    | _ => .error ()
  let event := dictSet er2.1 "sync_with_narration"
    (jobj [("narration_text", narr), ("timing_cue", jstr "during_word")])
  pure (jobj event, er2.2)

def celtCues (sec : List (String × JValue)) (current : Int) :
    CeltSt → List JValue → Except Unit CeltSt
  | st, [] => .ok st
  | st, c :: rest => do
    match c with
    | jobj cd =>
      let p ← celtCue sec current st.refs cd
      celtCues sec current { st with events := st.events ++ [p.1], refs := p.2 } rest
    | _ => .error ()

/-- Lines 527-574: one section of the timeline build. -/
def celtSection (script : List (String × JValue)) (totalJ : JValue)
    (st : CeltSt) (name : String) : Except Unit CeltSt := do
  match pyGetD script name (jobj []) with
  | jobj sec =>
    let dJ := pyGetD sec "duration_seconds" (jnum 0)
    let st1 ←
      match pyGetD sec "visual_cues" (jarr []) with
      | jarr cs => celtCues sec st.current st cs
      | jstr s => if s.length = 0 then pure st else .error ()
      | jobj kvs => if kvs.isEmpty then pure st else .error ()
      | _ => .error ()
    let D ← expectInt dJ
    let total ← expectInt totalJ
    let st2 :=
      if st1.current + D < total then
        { st1 with transitions := st1.transitions ++ [jobj
          [("from_timestamp", jnum (st1.current + D - 1)),
           ("to_timestamp", jnum (st1.current + D + 1)),
           ("transition_type", jstr "fade"), ("duration", jnum 1),
           ("easing", jstr "ease_in_out")]] }
      else st1
    pure { st2 with current := st1.current + D }
  | _ => .error ()

/-- Fresh `visual_timeline` value of lines 513-519. -/
def freshTimeline (totalJ : JValue) : JValue :=
  jobj [("total_duration", totalJ), ("timeline_events", jarr []),
        ("tweet_references", jobj []), ("visual_transitions", jarr [])]

/-- Lines 501-585: `create_enhanced_visual_timeline`.  All mutations other
than the initial key insertion happen after the build succeeds, so the
catch-all `except` returns the script with at most that insertion. -/
def create_enhanced_visual_timeline (script : List (String × JValue))
    (totalJ : JValue) : List (String × JValue) :=
  let script0 :=
    if hasKey script "visual_timeline" then script
    else dictSet script "visual_timeline" (freshTimeline totalJ)
  let build := do
    let st1 ← celtSection script0 totalJ ⟨[], [], [], 0⟩ "hook"
    let st2 ← celtSection script0 totalJ st1 "intro"
    celtSection script0 totalJ st2 "explainer"
  match build with
  | .ok st =>
    match dictGet script0 "visual_timeline" with
    | some (jobj vt) =>
      let vt1 := dictSet (dictSet (dictSet vt "timeline_events" (jarr st.events))
        "tweet_references" (jobj st.refs)) "visual_transitions" (jarr st.transitions)
      dictSet script0 "visual_timeline" (jobj vt1)
    | _ => script0
  | .error _ => script0

/-! ## JSON serialization (`json.dumps`) and parsing (`json.loads`)

`generate_script` feeds raw LLM text to `json.loads`; the round-trip claim
C9 also involves `json.dumps`.  Both are modelled for the JSON fragment the
verified code paths use: numbers are integers (floats, `NaN`/`Infinity` and
lone surrogates in `\u` escapes are outside the model; no theorem below
touches them).  Recursion over `JValue` is fuel-indexed so that every
definition is structural and evaluates by `rfl`. -/

def lbrace : Char := Char.ofNat 123

def rbrace : Char := Char.ofNat 125

def isDigitCh (c : Char) : Bool := 48 ≤ c.toNat && c.toNat ≤ 57

def digitChar (n : Nat) : Char := Char.ofNat (48 + n)

/-- Decimal digits of `n`, most significant first; fuel-indexed. -/
def natCharsF : Nat → Nat → List Char
  | 0, _ => []
  | fuel + 1, n =>
    if n < 10 then [digitChar n]
    else natCharsF fuel (n / 10) ++ [digitChar (n % 10)]

def natChars (n : Nat) : List Char := natCharsF (n + 1) n

def intChars (n : Int) : List Char :=
  if n < 0 then '-' :: natChars n.natAbs else natChars n.natAbs

/-- JSON whitespace (also what Python's `json` module skips). -/
def isJsonWs (c : Char) : Bool := c = ' ' || c = '\t' || c = '\n' || c = '\r'

/-- A string whose `json.dumps` rendering is itself, character for
character: printable ASCII without the quote and backslash escapes. -/
def wfStr (s : String) : Bool :=
  s.data.all fun c => 32 ≤ c.toNat && c.toNat ≤ 126 && c ≠ '"' && c ≠ '\\'

/-- Well-formedness at a given structural depth: integer numbers,
escape-free ASCII strings, and duplicate-free object keys throughout
(a value produced by `json.loads` always has unique keys). -/
def wfJ : Nat → JValue → Bool
  | 0, _ => false
  | fuel + 1, v =>
    match v with
    | jnull => true
    | jbool _ => true
    | jnum _ => true
    | jstr s => wfStr s
    | jarr xs => xs.all (wfJ fuel)
    | jobj kvs =>
      (kvs.all fun kv => wfStr kv.1 && wfJ fuel kv.2) &&
        decide (kvs.map Prod.fst).Nodup

/-- `json.dumps` with its default separators `", "` and `": "`, restricted
to values whose strings need no escaping (`wfStr`); fuel-indexed. -/
def jdumpF : Nat → JValue → List Char
  | 0, _ => []
  | fuel + 1, v =>
    match v with
    | jnull => "null".data
    | jbool b => if b then "true".data else "false".data
    | jnum n => intChars n
    | jstr s => '"' :: s.data ++ ['"']
    | jarr xs =>
      '[' :: (List.intercalate (", ".data) (xs.map (jdumpF fuel))) ++ [']']
    | jobj kvs =>
      lbrace :: (List.intercalate (", ".data)
        (kvs.map fun kv => '"' :: kv.1.data ++ ['"'] ++ ": ".data ++ jdumpF fuel kv.2)) ++ [rbrace]

def skipWs : List Char → List Char
  | [] => []
  | c :: rest => if isJsonWs c then skipWs rest else c :: rest

def hexVal (c : Char) : Option Nat :=
  if 48 ≤ c.toNat ∧ c.toNat ≤ 57 then some (c.toNat - 48)
  else if 97 ≤ c.toNat ∧ c.toNat ≤ 102 then some (c.toNat - 87)
  else if 65 ≤ c.toNat ∧ c.toNat ≤ 70 then some (c.toNat - 55)
  else none

def escChar (c : Char) : Option Char :=
  if c = '"' then some '"'
  else if c = '\\' then some '\\'
  else if c = '/' then some '/'
  else if c = 'b' then some (Char.ofNat 8)
  else if c = 'f' then some (Char.ofNat 12)
  else if c = 'n' then some '\n'
  else if c = 'r' then some '\r'
  else if c = 't' then some '\t'
  else none

mutual

/-- Body of a JSON string after the opening quote; fuel-indexed, with the
escape handling split into a mutual helper so that one consumed character
plus one unit of fuel unfolds one equation.  `\uXXXX` escapes accept
surrogate pairs; a lone surrogate (which CPython would keep) has no `Char`
representation and fails here — no theorem below depends on one. -/
def parseStrCharsF : Nat → List Char → Option (List Char × List Char)
  | 0, _ => none
  | _ + 1, [] => none
  | fuel + 1, c :: rest =>
    if c = '"' then some ([], rest)
    else if c = '\\' then parseEscF fuel rest
    else if c.toNat < 32 then none
    else
      match parseStrCharsF fuel rest with
      | some (s, r) => some (c :: s, r)
      | none => none

def parseEscF : Nat → List Char → Option (List Char × List Char)
  | 0, _ => none
  | _ + 1, [] => none
  | fuel + 1, 'u' :: h1 :: h2 :: h3 :: h4 :: rest2 =>
    (match hexVal h1, hexVal h2, hexVal h3, hexVal h4 with
      | some a, some b, some d, some e =>
        let n := ((a * 16 + b) * 16 + d) * 16 + e
        if 0xd800 ≤ n ∧ n ≤ 0xdbff then
          match rest2 with
          | '\\' :: 'u' :: g1 :: g2 :: g3 :: g4 :: rest3 =>
            match hexVal g1, hexVal g2, hexVal g3, hexVal g4 with
            | some a2, some b2, some d2, some e2 =>
              let m := ((a2 * 16 + b2) * 16 + d2) * 16 + e2
              if 0xdc00 ≤ m ∧ m ≤ 0xdfff then
                match parseStrCharsF fuel rest3 with
                | some (s, r) =>
                  some (Char.ofNat (0x10000 + (n - 0xd800) * 0x400 + (m - 0xdc00)) :: s, r)
                | none => none
              else none
            | _, _, _, _ => none
          | _ => none
        else if 0xdc00 ≤ n ∧ n ≤ 0xdfff then none
        else
          match parseStrCharsF fuel rest2 with
          | some (s, r) => some (Char.ofNat n :: s, r)
          | none => none
      | _, _, _, _ => none)
  | fuel + 1, e :: rest2 =>
    match escChar e with
    | some ec =>
      match parseStrCharsF fuel rest2 with
      | some (s, r) => some (ec :: s, r)
      | none => none
    | none => none

end

def digitsVal (ds : List Char) : Int :=
  ds.foldl (fun acc c => acc * 10 + (c.toNat - 48 : Int)) 0

/-- A JSON number restricted to integers: optional minus, digits, no
leading zero. -/
def parseNumber (cs : List Char) : Option (JValue × List Char) :=
  let core : List Char → Option (Int × List Char) := fun l =>
    let ds := l.takeWhile isDigitCh
    match ds with
    | [] => none
    | '0' :: _ :: _ => none
    | _ => some (digitsVal ds, l.dropWhile isDigitCh)
  match cs with
  | '-' :: rest =>
    match core rest with
    | some (n, r) => some (jnum (-n), r)
    | none => none
  | _ =>
    match core cs with
    | some (n, r) => some (jnum n, r)
    | none => none

mutual

/-- JSON value parser.  The fuel strictly decreases at every mutual call;
three units per consumed character is always enough, so the top level runs
with `3 * length + 3`. -/
def parseValueF : Nat → List Char → Option (JValue × List Char)
  | 0, _ => none
  | fuel + 1, cs =>
    match skipWs cs with
    | [] => none
    | c :: rest =>
      if c = '"' then
        match parseStrCharsF fuel rest with
        | some (s, r) => some (jstr (String.mk s), r)
        | none => none
      else if c = lbrace then parseObjStart fuel rest
      else if c = '[' then parseArrStart fuel rest
      else if c = 't' then
        match rest with
        | 'r' :: 'u' :: 'e' :: r => some (jbool true, r)
        | _ => none
      else if c = 'f' then
        match rest with
        | 'a' :: 'l' :: 's' :: 'e' :: r => some (jbool false, r)
        | _ => none
      else if c = 'n' then
        match rest with
        | 'u' :: 'l' :: 'l' :: r => some (jnull, r)
        | _ => none
      else if c = '-' || isDigitCh c then parseNumber (c :: rest)
      else none

def parseArrStart : Nat → List Char → Option (JValue × List Char)
  | 0, _ => none
  | fuel + 1, cs =>
    match skipWs cs with
    | ']' :: r => some (jarr [], r)
    | cs1 =>
      match parseArrItems fuel cs1 with
      | some (vs, r) => some (jarr vs, r)
      | none => none

def parseArrItems : Nat → List Char → Option (List JValue × List Char)
  | 0, _ => none
  | fuel + 1, cs =>
    match parseValueF fuel cs with
    | some (v, r) =>
      match skipWs r with
      | ',' :: r2 =>
        match parseArrItems fuel r2 with
        | some (vs, r3) => some (v :: vs, r3)
        | none => none
      | ']' :: r2 => some ([v], r2)
      | _ => none
    | none => none

def parseObjStart : Nat → List Char → Option (JValue × List Char)
  | 0, _ => none
  | fuel + 1, cs =>
    match skipWs cs with
    | c :: r =>
      if c = rbrace then some (jobj [], r)
      else
        match parseObjItems fuel (c :: r) with
        | some (kvs, r2) =>
          some (jobj (kvs.foldl (fun acc kv => dictSet acc kv.1 kv.2) []), r2)
        | none => none
    | [] => none

def parseObjItems : Nat → List Char → Option (List (String × JValue) × List Char)
  | 0, _ => none
  | fuel + 1, cs =>
    match skipWs cs with
    | '"' :: r =>
      match parseStrCharsF fuel r with
      | some (k, r1) =>
        match skipWs r1 with
        | ':' :: r2 =>
          match parseValueF fuel r2 with
          | some (v, r3) =>
            match skipWs r3 with
            | ',' :: r4 =>
              match parseObjItems fuel r4 with
              | some (kvs, r5) => some ((String.mk k, v) :: kvs, r5)
              | none => none
            | c2 :: r4 =>
              if c2 = rbrace then some ([(String.mk k, v)], r4) else none
            | [] => none
          | none => none
        | _ => none
      | none => none
    | _ => none

end

/-- `json.loads`: parse one value, then require only whitespace after it. -/
def jparse (s : String) : Option JValue :=
  match parseValueF (3 * s.length + 3) s.data with
  | some (v, r) =>
    match skipWs r with
    | [] => some v
    | _ :: _ => none
  | none => none

/-! ## `generate_script`'s response normalization

Source: `src/script_generator.py`, lines 952-1034, with
`_fix_common_json_errors`, lines 1040-1083.  Python regular-expression
substitutions are deterministic here (each pattern's greedy/lazy parts
cannot backtrack into a different overall match), so they are implemented
as left-to-right scanners: at each position either the whole pattern
matches maximally (emit the replacement, continue after the match) or the
scanner advances one character. -/

/-- Python `str.strip()` whitespace (the ASCII part). -/
def isPyWs (c : Char) : Bool :=
  c = ' ' || c = '\t' || c = '\n' || c = '\r' || c = Char.ofNat 11 || c = Char.ofNat 12

def pyStrip (s : String) : String :=
  String.mk (((s.data.dropWhile isPyWs).reverse.dropWhile isPyWs).reverse)

/-- `re.search(r'\x7b.*\x7d', text, re.DOTALL)`: everything from the first
opening brace through the last closing brace, when the latter follows the
former. -/
def braceSlice (s : String) : Option String :=
  let l := s.data
  let after := l.drop ((l.takeWhile fun c => c ≠ lbrace).length)
  match after with
  | [] => none
  | _ :: _ =>
    let revAfter := after.reverse
    let core := revAfter.drop ((revAfter.takeWhile fun c => c ≠ rbrace).length)
    match core with
    | [] => none
    | _ :: _ => some (String.mk core.reverse)

/-- Python `\w` over ASCII. -/
def isWordCh (c : Char) : Bool :=
  isDigitCh c || (65 ≤ c.toNat && c.toNat ≤ 90) || (97 ≤ c.toNat && c.toNat ≤ 122) || c = '_'

/-- Python `\s` over ASCII. -/
def isReWs (c : Char) : Bool :=
  c = ' ' || c = '\t' || c = '\n' || c = '\r' || c = Char.ofNat 11 || c = Char.ofNat 12

/-- Line 1053: `re.sub(r'(\s+)#([a-zA-Z0-9_]+)"', r'\1"#\2"', ...)`. -/
def fixHashQuoteF : Nat → List Char → List Char
  | 0, l => l
  | _ + 1, [] => []
  | fuel + 1, c :: rest =>
    if isReWs c then
      let ws := (c :: rest).takeWhile isReWs
      let after := (c :: rest).drop ws.length
      match after with
      | '#' :: t =>
        let w := t.takeWhile isWordCh
        match w, t.drop w.length with
        | _ :: _, '"' :: t3 => ws ++ '"' :: '#' :: w ++ '"' :: fixHashQuoteF fuel t3
        | _, _ => c :: fixHashQuoteF fuel rest
      | _ => c :: fixHashQuoteF fuel rest
    else c :: fixHashQuoteF fuel rest

/-- Line 1061: `re.findall(r'"([^"]*)"', ...)`. -/
def quotedSpansF : Nat → List Char → List (List Char)
  | 0, _ => []
  | _ + 1, [] => []
  | fuel + 1, c :: rest =>
    if c = '"' then
      let itm := rest.takeWhile fun x => x ≠ '"'
      match rest.drop itm.length with
      | '"' :: t3 => itm :: quotedSpansF fuel t3
      | _ => []
    else quotedSpansF fuel rest

/-- Lines 1063-1068: re-quote each item, prefixing `#` when missing. -/
def fixHashtagItem (itm : List Char) : List Char :=
  if itm ≠ [] ∧ itm.head? ≠ some '#' then '"' :: '#' :: itm ++ ['"']
  else '"' :: itm ++ ['"']

def hashtagsLit : List Char := '"' :: "hashtags".data ++ ['"', ':']

/-- Line 1068: the replacement text `"hashtags": [...]`. -/
def hashtagsFixedText (content : List Char) : List Char :=
  hashtagsLit ++ ' ' :: '[' ::
    List.intercalate (", ".data)
      ((quotedSpansF (content.length + 1) content).map fixHashtagItem) ++ [']']

/-- Lines 1057-1070: `re.sub(r'"hashtags":\s*\[([\s\S]*?)\]', fix, ...)`. -/
def fixHashtagsArrF : Nat → List Char → List Char
  | 0, l => l
  | _ + 1, [] => []
  | fuel + 1, c :: rest =>
    if hashtagsLit.isPrefixOf (c :: rest) then
      let t := (c :: rest).drop hashtagsLit.length
      let t2 := t.drop ((t.takeWhile isReWs).length)
      match t2 with
      | '[' :: t3 =>
        let content := t3.takeWhile fun x => x ≠ ']'
        match t3.drop content.length with
        | ']' :: t5 => hashtagsFixedText content ++ fixHashtagsArrF fuel t5
        | _ => c :: fixHashtagsArrF fuel rest
      | _ => c :: fixHashtagsArrF fuel rest
    else c :: fixHashtagsArrF fuel rest

/-- Line 1073: `re.sub(r',(\s*[\x7d\]])', r'\1', ...)`. -/
def fixTrailingCommasF : Nat → List Char → List Char
  | 0, l => l
  | _ + 1, [] => []
  | fuel + 1, c :: rest =>
    if c = ',' then
      let ws := rest.takeWhile isReWs
      match rest.drop ws.length with
      | b :: t2 =>
        if b = rbrace ∨ b = ']' then ws ++ b :: fixTrailingCommasF fuel t2
        else c :: fixTrailingCommasF fuel rest
      | [] => c :: fixTrailingCommasF fuel rest
    else c :: fixTrailingCommasF fuel rest

/-- Line 1076: `re.sub(r'"\s*\n\s*"', '",\n            "', ...)`. -/
def fixMissingCommasF : Nat → List Char → List Char
  | 0, l => l
  | _ + 1, [] => []
  | fuel + 1, c :: rest =>
    if c = '"' then
      let ws := rest.takeWhile isReWs
      if ws.contains '\n' then
        match rest.drop ws.length with
        | '"' :: t2 =>
          '"' :: ',' :: '\n' :: List.replicate 12 ' ' ++ '"' :: fixMissingCommasF fuel t2
        | _ => c :: fixMissingCommasF fuel rest
      else c :: fixMissingCommasF fuel rest
    else c :: fixMissingCommasF fuel rest

/-- Lines 1040-1083: `_fix_common_json_errors` (its own catch-all cannot
fire: every step is total). -/
def fix_common_json_errors (s : String) : String :=
  let l1 := fixHashQuoteF (s.data.length + 1) s.data
  let l2 := fixHashtagsArrF (l1.length + 1) l1
  let l3 := fixTrailingCommasF (l2.length + 1) l2
  String.mk (fixMissingCommasF (l3.length + 1) l3)

/-- Lines 1010-1034: the fallback placeholder artifact. -/
def placeholderArtifact (style : String) (targetDuration : Int) (rawContent : String) : JValue :=
  jobj
    [("hook", jobj
       [("text", jstr "Generated content could not be parsed as JSON"),
        ("duration_seconds", jnum 15),
        ("visual_suggestions", jarr [jstr "Check raw content below"])]),
     ("intro", jobj
       [("text", jstr "Please review the raw generated content"),
        ("duration_seconds", jnum 15),
        ("visual_suggestions", jarr [jstr "Manual formatting needed"])]),
     ("explainer", jobj
       [("text", jstr "The AI generated content but not in expected format"),
        ("duration_seconds", jnum 30),
        ("visual_suggestions", jarr [jstr "Review and reformat manually"])]),
     ("metadata", jobj
       [("total_duration", jnum targetDuration),
        ("style", jstr style),
        ("key_points", jarr [jstr "JSON parsing failed"]),
        ("hashtags", jarr [jstr "#error", jstr "#manual_review_needed"]),
        ("raw_content", jstr rawContent),
        ("error", jstr "Generated content was not in expected JSON format")])]

/-- Whether a value is a dict carrying the key. -/
def hasKeyJ (v : JValue) (k : String) : Bool :=
  match v with
  | jobj d => hasKey d k
  | _ => false

/-- Lines 441-499: `validate_and_enhance_timing`. -/
def validate_and_enhance_timing (script_data : JValue) : JValue :=
  match script_data with
  | jobj d =>
    if d.isEmpty then script_data
    else
      match pyGetD d "metadata" (jobj []) with
      | jobj md =>
        let totalJ := pyGetD md "total_duration" (jnum 60)
        match runSection d "hook" 0 with
        | .error s => jobj s
        | .ok (d1, c1) =>
          match runSection d1 "intro" c1 with
          | .error s => jobj s
          | .ok (d2, c2) =>
            match runSection d2 "explainer" c2 with
            | .error s => jobj s
            | .ok (d3, _) => jobj (create_enhanced_visual_timeline d3 totalJ)
      | _ => script_data
  | _ => script_data

/-- Lines 952-1034: the response-normalization cascade of `generate_script`
(after the model call): strip, direct parse, brace slice, syntax fixes,
placeholder.  Each successful parse is followed by timing validation. -/
def normalize_script_response (style : String) (targetDuration : Int)
    (response : String) : JValue :=
  let g := pyStrip response
  match jparse g with
  | some v => validate_and_enhance_timing v
  | none =>
    match braceSlice g with
    | some s =>
      match jparse s with
      | some v => validate_and_enhance_timing v
      | none =>
        let f := fix_common_json_errors s
        if f ≠ s then
          match jparse f with
          | some v => validate_and_enhance_timing v
          | none => placeholderArtifact style targetDuration g
        else placeholderArtifact style targetDuration g
    | none => placeholderArtifact style targetDuration g

/-! ## Observers and spec-side predicates used by the theorem statements -/

/-- `v[k]` read through a dict value (`jnull` otherwise/absent). -/
def pyGetJ (v : JValue) (k : String) : JValue :=
  match v with
  | jobj d => pyGet d k
  | _ => jnull

/-- `v[i]` read through an array value (`jnull` otherwise/out of range). -/
def jIndex (v : JValue) (i : Nat) : JValue :=
  match v with
  | jarr xs => xs.getD i jnull
  | _ => jnull

/-- The author fallback of line 125 is safe (cannot raise) iff the author
resolved truthy or `user` is absent or a dict. -/
def mainAuthorSafe (d : List (String × JValue)) : Bool :=
  truthy (extract_author_screen_name (jobj d)) ||
    (match dictGet d "user" with
     | some (jobj _) => true
     | none => true
     | some _ => false)

/-- The root author the assembler stores (defined on safe inputs; the
unsafe case raises instead and is arbitrary here). -/
def mainAuthorResolved (d : List (String × JValue)) : JValue :=
  let a0 := extract_author_screen_name (jobj d)
  if truthy a0 then a0
  else
    match dictGet d "user" with
    | some (jobj u) => pyOr (pyGet u "id_str") (jstr "unknown_user")
    | _ => jstr "unknown_user"

/-- Bitrate of a variant as the sort key reads it. -/
def bitrateOf (v : List (String × JValue)) : Int :=
  (asIntPy (pyGetD v "bitrate" (jnum 0))).getD 0

/-- Scenario behaviour for the fallback-policy witness: the primary fails
with a gateway error, the first fallback candidate succeeds. -/
def behavScenario : String → CallResult := fun m =>
  if m = "m1" then .failure "502 Bad Gateway"
  else if m = "qwen/qwen-2.5-72b-instruct:free" then .success "R2"
  else .success "R3"

def isFailure : CallResult → Bool
  | .success _ => false
  | .failure _ => true

/-- Effective section duration after the defaulting step. -/
def effDur (name : String) (n : Int) : Int :=
  if n ≤ 0 then sectionDefault name else n

/-- A cue dict with integer fields whose duration is positive and at most
the section duration (the amended C4 hypothesis). -/
def cueShapeOk (D : Int) (c : JValue) : Bool :=
  match c with
  | jobj cd =>
    match dictGet cd "timestamp", dictGet cd "duration" with
    | some (jnum _), some (jnum dur) => 0 < dur && dur ≤ D
    | _, _ => false
  | _ => false

/-- A named section in the shape the amended C4 quantifies over. -/
def sectionShapeOk (name : String) (d : List (String × JValue)) : Bool :=
  match dictGet d name with
  | some (jobj sec) =>
    match dictGet sec "duration_seconds" with
    | some (jnum n) =>
      match dictGet sec "visual_cues" with
      | some (jarr cs) => cs.all (cueShapeOk (effDur name n))
      | _ => false
    | _ => false
  | _ => false

/-- Metadata must be a dict or absent for validation to run. -/
def metadataShapeOk (d : List (String × JValue)) : Bool :=
  match dictGet d "metadata" with
  | some (jobj _) => true
  | none => true
  | some _ => false

def wfTimingInput (d : List (String × JValue)) : Bool :=
  (sectionNames.all fun nm => sectionShapeOk nm d) && metadataShapeOk d

/-- Effective duration of a named section of the input. -/
def effDurOf (d : List (String × JValue)) (name : String) : Int :=
  match dictGet d name with
  | some (jobj sec) =>
    match dictGet sec "duration_seconds" with
    | some (jnum n) => effDur name n
    | _ => 0
  | _ => 0

/-- A validated cue: timestamp inside `[start, start + D)` and the cue end
at most the section end. -/
def cueWithinWindow (start D : Int) (c : JValue) : Bool :=
  match c with
  | jobj cd =>
    match dictGet cd "timestamp", dictGet cd "duration" with
    | some (jnum t), some (jnum dur) =>
      start ≤ t && t < start + D && t + dur ≤ start + D
    | _, _ => false
  | _ => false

/-- A named section of the output: positive duration equal to `D` and every
cue within the window starting at `start`. -/
def sectionOutOk (d : List (String × JValue)) (name : String) (start D : Int) : Bool :=
  match dictGet d name with
  | some (jobj sec) =>
    match dictGet sec "duration_seconds" with
    | some (jnum n) =>
      n = D && 0 < D &&
        (match dictGet sec "visual_cues" with
         | some (jarr cs) => cs.all (cueWithinWindow start D)
         | _ => false)
    | _ => false
  | _ => false

/-- The amended C4 conclusion over the validated script. -/
def timingOutputOk (d0 : List (String × JValue)) (out : JValue) : Bool :=
  match out with
  | jobj d =>
    let dH := effDurOf d0 "hook"
    let dI := effDurOf d0 "intro"
    sectionOutOk d "hook" 0 dH && sectionOutOk d "intro" dH dI &&
      sectionOutOk d "explainer" (dH + dI) (effDurOf d0 "explainer")
  | _ => false

/-- A cue already inside its window, for which the validation pass is the
identity: no shift and no truncation. -/
def cueNoOp (start D : Int) (c : JValue) : Bool :=
  match c with
  | jobj cd =>
    match dictGet cd "timestamp", dictGet cd "duration" with
    | some (jnum t), some (jnum dur) =>
      start ≤ t && t < start + D && dur ≤ start + D - t
    | _, _ => false
  | _ => false

/-- A named section already valid: positive duration and no-op cues. -/
def sectionNoOp (name : String) (d : List (String × JValue)) (start : Int) : Bool :=
  match dictGet d name with
  | some (jobj sec) =>
    match dictGet sec "duration_seconds" with
    | some (jnum n) =>
      0 < n &&
        (match dictGet sec "visual_cues" with
         | some (jarr cs) => cs.all (cueNoOp start n)
         | _ => false)
    | _ => false
  | _ => false

/-- An artifact on which the section pass of timing validation is the
identity (the amended C9 hypothesis). -/
def wfTimingNoOp (d : List (String × JValue)) : Bool :=
  sectionNoOp "hook" d 0 &&
    sectionNoOp "intro" d (effDurOf d "hook") &&
    sectionNoOp "explainer" d (effDurOf d "hook" + effDurOf d "intro") &&
    metadataShapeOk d

/-- Input refuting C4 as stated: a hook cue whose timestamp/duration sit far
beyond the 15-second hook window. -/
def cex4 : List (String × JValue) :=
  [("hook", jobj [("duration_seconds", jnum 15),
     ("visual_cues", jarr [jobj [("timestamp", jnum 100), ("duration", jnum 100)]])]),
   ("intro", jobj [("duration_seconds", jnum 15), ("visual_cues", jarr [])]),
   ("explainer", jobj [("duration_seconds", jnum 30), ("visual_cues", jarr [])])]

/-- Witness input for C4: in-window cues in all three sections. -/
def wit4 : List (String × JValue) :=
  [("hook", jobj [("duration_seconds", jnum 15),
     ("visual_cues", jarr [jobj [("timestamp", jnum 2), ("duration", jnum 3)]])]),
   ("intro", jobj [("duration_seconds", jnum 15), ("visual_cues", jarr [])]),
   ("explainer", jobj [("duration_seconds", jnum 30), ("visual_cues", jarr [])])]

/-- After one JSON value, the parser may only continue with a non-digit
(numbers are read greedily). -/
def headNotDigit : List Char → Bool
  | [] => true
  | c :: _ => !isDigitCh c

/-- Minimal artifact for the C9 counterexample: a dict with no
`visual_timeline` key. -/
def cex9 : List (String × JValue) := [("a", jnum 1)]

/-- Witness artifact for C9: three already-valid sections. -/
def wit9 : List (String × JValue) :=
  [("hook", jobj [("duration_seconds", jnum 15),
     ("visual_cues", jarr [jobj [("timestamp", jnum 2), ("duration", jnum 3)]])]),
   ("intro", jobj [("duration_seconds", jnum 15), ("visual_cues", jarr [])]),
   ("explainer", jobj [("duration_seconds", jnum 30), ("visual_cues", jarr [])])]

/-! # Theorems -/

/-! ## C1: id resolution -/

/-- C1 counterexample: Python `or` skips falsy values, not just null.  On a
record whose `id_str` is present with the non-null value `""`, the code
returns the value of `id` instead of `""`, contradicting the claimed
"first key present with a non-null value" rule. -/
theorem C1_counterexample :
    extract_tweet_id (jobj [("id_str", jstr ""), ("id", jstr "123")]) =
      .ok (jstr "123") ∧
    firstNonNullIdSpec [("id_str", jstr ""), ("id", jstr "123")] =
      some (jstr "") ∧
    (jstr "123" : JValue) ≠ jstr "" := by
  refine ⟨rfl, rfl, ?_⟩
  simp

/-- Shared helper: on every dict, the id chain returns the first truthy
key value (and in particular never raises). -/
theorem extract_tweet_id_firstTruthy (d : List (String × JValue)) :
    extract_tweet_id (jobj d) = .ok (firstTruthyIdSpec d) := by
  cases d with
  | nil => rfl
  | cons p l =>
    have e1 : extract_tweet_id (jobj (p :: l)) = Except.ok
        (pyOr (pyGet (p :: l) "id_str") <| pyOr (pyGet (p :: l) "rest_id") <|
          pyOr (pyGet (p :: l) "id") <| pyOr (pyGet (p :: l) "tweetId") <|
          pyOr (pyGet (p :: l) "tweet_id") <| pyOr (pyGet (p :: l) "postId") <|
          pyOr (pyGet (p :: l) "post_id") <| pyOr (pyGet (p :: l) "statusId") <|
          pyOr (pyGet (p :: l) "status_id") <| pyGet (p :: l) "replyId") := rfl
    rw [e1]
    refine congrArg Except.ok ?_
    simp only [firstTruthyIdSpec, idKeys, List.filterMap_cons, List.filterMap_nil]
    by_cases h1 : truthy (pyGet (p :: l) "id_str") <;>
      simp only [pyOr, h1, if_true, if_false, List.head?] <;> try rfl
    by_cases h2 : truthy (pyGet (p :: l) "rest_id") <;>
      simp only [h2, if_true, if_false, List.head?] <;> try rfl
    by_cases h3 : truthy (pyGet (p :: l) "id") <;>
      simp only [h3, if_true, if_false, List.head?] <;> try rfl
    by_cases h4 : truthy (pyGet (p :: l) "tweetId") <;>
      simp only [h4, if_true, if_false, List.head?] <;> try rfl
    by_cases h5 : truthy (pyGet (p :: l) "tweet_id") <;>
      simp only [h5, if_true, if_false, List.head?] <;> try rfl
    by_cases h6 : truthy (pyGet (p :: l) "postId") <;>
      simp only [h6, if_true, if_false, List.head?] <;> try rfl
    by_cases h7 : truthy (pyGet (p :: l) "post_id") <;>
      simp only [h7, if_true, if_false, List.head?] <;> try rfl
    by_cases h8 : truthy (pyGet (p :: l) "statusId") <;>
      simp only [h8, if_true, if_false, List.head?] <;> try rfl
    by_cases h9 : truthy (pyGet (p :: l) "status_id") <;>
      simp only [h9, if_true, if_false, List.head?] <;> try rfl
    by_cases h10 : truthy (pyGet (p :: l) "replyId") <;>
      simp only [h10, if_true, if_false, List.head?] <;> rfl

/-- C1 (amended): for every record dictionary, id resolution returns the
value of the first key among `id_str, rest_id, id, tweetId, tweet_id,
postId, post_id, statusId, status_id, replyId` whose value is truthy; when
no key has a truthy value it returns the (falsy) value of `replyId` when
present and `None` otherwise, which callers treat as a missing id. -/
theorem C1_id_resolution_first_truthy (d : List (String × JValue)) :
    extract_tweet_id (jobj d) = .ok (firstTruthyIdSpec d) :=
  extract_tweet_id_firstTruthy d

/-! ## C8: author resolution -/

/-- Shared helper: the fall-through tail of the implementation equals the
amended chain tail. -/
theorem authorDictStep_eq_amendedTail (d : List (String × JValue)) :
    authorDictStep d = authorAmendedTail d := by
  unfold authorDictStep authorAmendedTail flatStep replyUrlStep
  rfl

/-- Shared helper: author resolution on a dict follows the amended chain. -/
theorem extract_author_eq_amended (d : List (String × JValue)) :
    extract_author_screen_name (jobj d) = authorAmendedSpec d := by
  cases d with
  | nil => rfl
  | cons p l =>
    have ht : extract_author_screen_name (jobj (p :: l)) =
        (match dictGet (p :: l) "user" with
         | some (jobj u) =>
           if hasKey u "screen_name" then pyGet u "screen_name"
           else authorDictStep (p :: l)
         | _ => authorDictStep (p :: l)) := rfl
    rw [ht]
    unfold authorAmendedSpec
    cases hu : dictGet (p :: l) "user" with
    | none => exact authorDictStep_eq_amendedTail (p :: l)
    | some v =>
      cases v with
      | jobj u =>
        by_cases hs : hasKey u "screen_name"
        · simp [hs]
        · simp [hs, authorDictStep_eq_amendedTail (p :: l)]
      | jnull => exact authorDictStep_eq_amendedTail (p :: l)
      | jbool b => exact authorDictStep_eq_amendedTail (p :: l)
      | jnum n => exact authorDictStep_eq_amendedTail (p :: l)
      | jstr s => exact authorDictStep_eq_amendedTail (p :: l)
      | jarr xs => exact authorDictStep_eq_amendedTail (p :: l)

/-- C8 counterexample: when `author` is bound to a dict the chain returns
its `or`-combination unconditionally, so a record with an empty `author`
dict and a flat `username` resolves to `None` (later the sentinel), not to
the flat key as the claimed chain would. -/
theorem C8_counterexample :
    extract_author_screen_name (jobj [("author", jobj []), ("username", jstr "alice")]) =
      jnull ∧
    authorClaimSpec [("author", jobj []), ("username", jstr "alice")] = jstr "alice" ∧
    (jnull : JValue) ≠ jstr "alice" := by
  refine ⟨rfl, rfl, ?_⟩
  simp

/-- C8 (amended): author resolution tries nested `user.screen_name`, then —
when `author` is a dict — the first truthy of its
`screen_name`/`username`/`name` without falling through, then the flat
string-valued keys `username`/`user_screen_name`/`screen_name`/`userName`,
then a `replyUrl` path segment (rejecting `undefined`/`status`/`i`/`web`),
then `author` as a plain string; and a reply whose id resolves truthy is
always assembled into a record, with the sentinel `unknown_reply_author`
substituted when the author chain yields a falsy value. -/
theorem C8_author_resolution (d : List (String × JValue)) :
    extract_author_screen_name (jobj d) = authorAmendedSpec d ∧
    (∀ r rid, truthy r = true → extract_tweet_id r = .ok rid → truthy rid = true →
      processReply r = .ok (some ⟨rid,
        (if truthy (extract_author_screen_name r) then extract_author_screen_name r
         else jstr "unknown_reply_author"), r,
        if truthy (extract_video_url r) then [⟨rid, extract_video_url r⟩] else []⟩)) := by
  refine ⟨extract_author_eq_amended d, ?_⟩
  intro r rid hr hid hrid
  unfold processReply
  rw [hr, hid]
  simp only [Bool.not_true, Bool.false_eq_true, if_false, bind, Except.bind, hrid,
    pure, Except.pure]

/-- C8 witness: a reply whose only key is a truthy `replyId` is still
assembled, with the sentinel author. -/
theorem C8_author_resolution_witness :
    truthy (jobj [("replyId", jstr "5")]) = true ∧
    extract_tweet_id (jobj [("replyId", jstr "5")]) = .ok (jstr "5") ∧
    truthy (jstr "5") = true ∧
    processReply (jobj [("replyId", jstr "5")]) =
      .ok (some ⟨jstr "5", jstr "unknown_reply_author", jobj [("replyId", jstr "5")], []⟩) :=
  ⟨rfl, rfl, rfl,
    (C8_author_resolution []).2 (jobj [("replyId", jstr "5")]) (jstr "5") rfl rfl rfl⟩

/-! ## C5: thread assembly -/

/-- Shared helper: reply processing over dict-or-falsy replies is the
order-preserving `filterMap` of the per-reply rule. -/
theorem processReplies_filterMap (rs : List JValue)
    (h : ∀ r ∈ rs, truthy r = false ∨ isObjB r = true) :
    processReplies rs = .ok (rs.filterMap replySpecOk) := by
  induction rs with
  | nil => rfl
  | cons r rest ih =>
    have hrest : ∀ x ∈ rest, truthy x = false ∨ isObjB x = true := by
      intro x hx
      exact h x (List.mem_cons_of_mem _ hx)
    rcases h r (List.mem_cons_self _ _) with hf | hobj
    · unfold processReplies processReply
      rw [hf]
      simp only [Bool.not_false, if_true, bind, Except.bind, List.filterMap_cons]
      have hspec : replySpecOk r = none := by
        unfold replySpecOk
        rw [hf]
        rfl
      rw [hspec, ih hrest]
    · cases r with
      | jobj rd =>
        unfold processReplies processReply
        by_cases hr : truthy (jobj rd) = true
        · rw [hr]
          simp only [Bool.not_true, Bool.false_eq_true, if_false, bind, Except.bind,
            extract_tweet_id_firstTruthy rd]
          by_cases hid : truthy (firstTruthyIdSpec rd) = true
          · rw [hid]
            simp only [Bool.not_true, Bool.false_eq_true, if_false, pure, Except.pure,
              List.filterMap_cons]
            have hspec : replySpecOk (jobj rd) = some
                ⟨firstTruthyIdSpec rd,
                 (if truthy (extract_author_screen_name (jobj rd)) = true then
                    extract_author_screen_name (jobj rd)
                  else jstr "unknown_reply_author"), jobj rd,
                 if truthy (extract_video_url (jobj rd)) = true then
                   [⟨firstTruthyIdSpec rd, extract_video_url (jobj rd)⟩]
                 else []⟩ := by
              unfold replySpecOk
              rw [hr]
              simp only [Bool.not_true, Bool.false_eq_true, if_false,
                extract_tweet_id_firstTruthy rd, hid, if_true]
            rw [hspec, ih hrest]
          · rw [Bool.eq_false_iff.mpr hid]
            simp only [Bool.not_false, if_true, pure, Except.pure, List.filterMap_cons]
            have hspec : replySpecOk (jobj rd) = none := by
              unfold replySpecOk
              rw [hr]
              simp only [Bool.not_true, Bool.false_eq_true, if_false,
                extract_tweet_id_firstTruthy rd, Bool.eq_false_iff.mpr hid]
            rw [hspec, ih hrest]
        · have hf : truthy (jobj rd) = false := Bool.eq_false_iff.mpr hr
          rw [hf]
          simp only [Bool.not_false, if_true, bind, Except.bind, List.filterMap_cons]
          have hspec : replySpecOk (jobj rd) = none := by
            unfold replySpecOk
            rw [hf]
            rfl
          rw [hspec, ih hrest]
      | jnull => simp [isObjB] at hobj
      | jbool b => simp [isObjB] at hobj
      | jnum n => simp [isObjB] at hobj
      | jstr s => simp [isObjB] at hobj
      | jarr xs => simp [isObjB] at hobj

/-- C5 counterexample: a main record with a non-dict `user` and no id makes
the author fallback of line 125 raise `AttributeError` instead of the
claimed `None` return for a missing id. -/
theorem C5_counterexample :
    parse_tweet_and_replies_data (jobj [("user", jstr "x")]) [] =
      .error "AttributeError" ∧
    truthy (jobj [("user", jstr "x")]) = true ∧
    extract_tweet_id (jobj [("user", jstr "x")]) = .ok jnull ∧
    truthy jnull = false ∧
    Except.error "AttributeError" ≠ (.ok none : Except String (Option ParsedData)) := by
  refine ⟨rfl, rfl, rfl, rfl, ?_⟩
  simp

/-- C5 (amended): assembly returns `None` exactly when the main record is
falsy, or when the author fallback is safe and the resolved id is falsy; it
raises `AttributeError` when the author chain yields a falsy value while
`user` is present and not a dict; and over dict (or falsy) replies the
output drops exactly the replies with falsy data or falsy id, keeping the
rest in input order with sentinel authors substituted. -/
theorem C5_assembly (d : List (String × JValue)) :
    (∀ td rs, truthy td = false → parse_tweet_and_replies_data td rs = .ok none) ∧
    (∀ rs, truthy (jobj d) = true → mainAuthorSafe d = false →
      parse_tweet_and_replies_data (jobj d) rs = .error "AttributeError") ∧
    (∀ rs v, truthy (jobj d) = true → mainAuthorSafe d = true →
      extract_tweet_id (jobj d) = .ok v → truthy v = false →
      parse_tweet_and_replies_data (jobj d) rs = .ok none) ∧
    (∀ rs v, truthy (jobj d) = true → mainAuthorSafe d = true →
      extract_tweet_id (jobj d) = .ok v → truthy v = true →
      (∀ r ∈ rs, truthy r = false ∨ isObjB r = true) →
      parse_tweet_and_replies_data (jobj d) rs = .ok (some
        ⟨mainAuthorResolved d, v, jobj d,
         (if truthy (extract_video_url (jobj d)) = true then
            [⟨v, extract_video_url (jobj d)⟩] else []),
         rs.filterMap replySpecOk⟩)) := by
  refine ⟨?_, ?_, ?_, ?_⟩
  · intro td rs h
    unfold parse_tweet_and_replies_data
    rw [h]
    rfl
  · intro rs ht hunsafe
    have ha : truthy (extract_author_screen_name (jobj d)) = false := by
      rcases Bool.or_eq_false_iff.mp (by simpa [mainAuthorSafe] using hunsafe) with ⟨h1, _⟩
      exact h1
    have hu : ∃ w, dictGet d "user" = some w ∧ isObjB w = false := by
      rcases Bool.or_eq_false_iff.mp (by simpa [mainAuthorSafe] using hunsafe) with ⟨_, h2⟩
      cases hw : dictGet d "user" with
      | none => rw [hw] at h2; exact absurd h2 (by simp)
      | some w =>
        cases w with
        | jobj o => rw [hw] at h2; exact absurd h2 (by simp)
        | jnull => exact ⟨jnull, rfl, rfl⟩
        | jbool b => exact ⟨jbool b, rfl, rfl⟩
        | jnum n => exact ⟨jnum n, rfl, rfl⟩
        | jstr s => exact ⟨jstr s, rfl, rfl⟩
        | jarr xs => exact ⟨jarr xs, rfl, rfl⟩
    unfold parse_tweet_and_replies_data
    rw [ht]
    simp only [Bool.not_true, Bool.false_eq_true, if_false, bind, Except.bind,
      extract_tweet_id_firstTruthy d, ha, Bool.not_false, if_true]
    have hview : mainAuthorFallback (jobj d) =
        (match dictGet d "user" with
         | some (jobj u) => Except.ok (pyOr (pyGet u "id_str") (jstr "unknown_user"))
         | some _ => Except.error "AttributeError"
         | none => Except.ok (pyOr jnull (jstr "unknown_user"))) := rfl
    rw [hview]
    rcases hu with ⟨w, hw, hwo⟩
    rw [hw]
    cases w with
    | jobj o => simp [isObjB] at hwo
    | jnull => rfl
    | jbool b => rfl
    | jnum n => rfl
    | jstr s => rfl
    | jarr xs => rfl
  · intro rs v ht hsafe hid hvf
    unfold parse_tweet_and_replies_data
    rw [ht]
    simp only [Bool.not_true, Bool.false_eq_true, if_false, bind, Except.bind, hid]
    by_cases ha : truthy (extract_author_screen_name (jobj d)) = true
    · rw [ha]
      simp only [Bool.not_true, Bool.false_eq_true, if_false, pure, Except.pure,
        bind, Except.bind, hvf, Bool.not_false, if_true]
    · have haf : truthy (extract_author_screen_name (jobj d)) = false :=
        Bool.eq_false_iff.mpr ha
      rw [haf]
      have hu : (match dictGet d "user" with
          | some (jobj _) => true
          | none => true
          | some _ => false) = true := by
        have := hsafe
        unfold mainAuthorSafe at this
        rw [haf] at this
        simpa using this
      simp only [Bool.not_false, if_true]
      have hview : mainAuthorFallback (jobj d) =
          (match dictGet d "user" with
           | some (jobj u) => Except.ok (pyOr (pyGet u "id_str") (jstr "unknown_user"))
           | some _ => Except.error "AttributeError"
           | none => Except.ok (pyOr jnull (jstr "unknown_user"))) := rfl
      rw [hview]
      cases hw : dictGet d "user" with
      | none =>
        simp only [bind, Except.bind, hvf, Bool.not_false, if_true, pure, Except.pure]
      | some w =>
        cases w with
        | jobj o =>
          simp only [bind, Except.bind, hvf, Bool.not_false, if_true, pure, Except.pure]
        | jnull => rw [hw] at hu; simp at hu
        | jbool b => rw [hw] at hu; simp at hu
        | jnum n => rw [hw] at hu; simp at hu
        | jstr s => rw [hw] at hu; simp at hu
        | jarr xs => rw [hw] at hu; simp at hu
  · intro rs v ht hsafe hid hvt hrs
    unfold parse_tweet_and_replies_data
    rw [ht]
    simp only [Bool.not_true, Bool.false_eq_true, if_false, bind, Except.bind, hid]
    by_cases ha : truthy (extract_author_screen_name (jobj d)) = true
    · simp only [ha, Bool.not_true, Bool.false_eq_true, if_false, pure, Except.pure,
        hvt, processReplies_filterMap rs hrs, mainAuthorResolved, if_true]
    · have haf : truthy (extract_author_screen_name (jobj d)) = false :=
        Bool.eq_false_iff.mpr ha
      have hu : (match dictGet d "user" with
          | some (jobj _) => true
          | none => true
          | some _ => false) = true := by
        have := hsafe
        unfold mainAuthorSafe at this
        rw [haf] at this
        simpa using this
      have hview : mainAuthorFallback (jobj d) =
          (match dictGet d "user" with
           | some (jobj u) => Except.ok (pyOr (pyGet u "id_str") (jstr "unknown_user"))
           | some _ => Except.error "AttributeError"
           | none => Except.ok (pyOr jnull (jstr "unknown_user"))) := rfl
      simp only [haf, Bool.not_false, if_true, hview, mainAuthorResolved,
        Bool.false_eq_true, if_false]
      cases hw : dictGet d "user" with
      | none =>
        simp only [hvt, Bool.not_true, Bool.false_eq_true, if_false,
          processReplies_filterMap rs hrs, pure, Except.pure]
        rfl
      | some w =>
        cases w with
        | jobj o =>
          simp only [hvt, Bool.not_true, Bool.false_eq_true, if_false,
            processReplies_filterMap rs hrs, pure, Except.pure]
        | jnull => rw [hw] at hu; simp at hu
        | jbool b => rw [hw] at hu; simp at hu
        | jnum n => rw [hw] at hu; simp at hu
        | jstr s => rw [hw] at hu; simp at hu
        | jarr xs => rw [hw] at hu; simp at hu

/-- C5 witness: a concrete thread with one good reply and two dropped
replies assembles in input order. -/
theorem C5_assembly_witness :
    truthy (jobj [("id", jstr "7"), ("username", jstr "bob")]) = true ∧
    mainAuthorSafe [("id", jstr "7"), ("username", jstr "bob")] = true ∧
    extract_tweet_id (jobj [("id", jstr "7"), ("username", jstr "bob")]) = .ok (jstr "7") ∧
    truthy (jstr "7") = true ∧
    parse_tweet_and_replies_data (jobj [("id", jstr "7"), ("username", jstr "bob")])
        [jobj [("replyId", jstr "1")], jstr "", jobj []] =
      .ok (some ⟨jstr "bob", jstr "7", jobj [("id", jstr "7"), ("username", jstr "bob")], [],
        [⟨jstr "1", jstr "unknown_reply_author", jobj [("replyId", jstr "1")], []⟩]⟩) :=
  ⟨rfl, rfl, rfl, rfl,
    (C5_assembly [("id", jstr "7"), ("username", jstr "bob")]).2.2.2
      [jobj [("replyId", jstr "1")], jstr "", jobj []] (jstr "7") rfl rfl rfl rfl
      (by intro r hr; fin_cases hr <;> simp [truthy, isObjB])⟩

/-! ## C6: best-video selection -/

/-- Head of a stable descending insertion. -/
theorem insertDescBy_head (key : α → Int) (x : α) (s : List α) :
    (insertDescBy key x s).head? =
      (match s.head? with
       | none => some x
       | some y => if key y ≤ key x then some x else some y) := by
  cases s with
  | nil => rfl
  | cons y ys =>
    by_cases h : key y ≤ key x
    · simp [insertDescBy, h]
    · simp [insertDescBy, h]

/-- The head of the stable descending sort is the first maximum. -/
theorem sortDescBy_head (key : α → Int) (l : List α) :
    (sortDescBy key l).head? = firstMaxBy key l := by
  induction l with
  | nil => rfl
  | cons x xs ih =>
    show (insertDescBy key x (sortDescBy key xs)).head? = _
    rw [insertDescBy_head, ih]
    cases h : firstMaxBy key xs with
    | none => simp [firstMaxBy, h]
    | some m =>
      by_cases hk : key m ≤ key x
      · simp [firstMaxBy, h, hk]
      · simp [firstMaxBy, h, hk]

theorem firstMaxBy_eq_none (key : α → Int) (l : List α) :
    firstMaxBy key l = none ↔ l = [] := by
  cases l with
  | nil => simp [firstMaxBy]
  | cons x xs =>
    simp only [firstMaxBy]
    constructor
    · intro h
      cases hx : firstMaxBy key xs with
      | none => rw [hx] at h; simp at h
      | some m => rw [hx] at h; by_cases hk : key m ≤ key x <;> simp [hk] at h
    · intro h
      exact absurd h (List.cons_ne_nil x xs)

/-- The element returned by `firstMaxBy` splits the list into a strictly
smaller prefix and a not-larger suffix: it is the first-listed maximum. -/
theorem firstMaxBy_split (key : α → Int) :
    ∀ (l : List α) (m : α), firstMaxBy key l = some m →
      ∃ l1 l2, l = l1 ++ m :: l2 ∧ (∀ x ∈ l1, key x < key m) ∧
        (∀ x ∈ l2, key x ≤ key m) := by
  intro l
  induction l with
  | nil => intro m h; simp [firstMaxBy] at h
  | cons x xs ih =>
    intro m h
    cases hx : firstMaxBy key xs with
    | none =>
      have hnil : xs = [] := (firstMaxBy_eq_none key xs).mp hx
      subst hnil
      simp only [firstMaxBy] at h
      cases h
      exact ⟨[], [], rfl, by simp, by simp⟩
    | some m' =>
      rcases ih m' hx with ⟨l1, l2, hsplit, hlt, hle⟩
      simp only [firstMaxBy, hx] at h
      by_cases hk : key m' ≤ key x
      · rw [if_pos hk] at h
        cases h
        refine ⟨[], xs, rfl, by simp, ?_⟩
        intro y hy
        rw [hsplit] at hy
        rcases List.mem_append.mp hy with h1 | h2
        · exact le_trans (le_of_lt (hlt y h1)) hk
        · rcases List.mem_cons.mp h2 with h3 | h4
          · rw [h3]; exact hk
          · exact le_trans (hle y h4) hk
      · rw [if_neg hk] at h
        cases h
        refine ⟨x :: l1, l2, by rw [hsplit]; rfl, ?_, hle⟩
        intro y hy
        rcases List.mem_cons.mp hy with h1 | h2
        · rw [h1]; exact lt_of_not_le hk
        · exact hlt y h2

theorem firstMaxBy_map (g : α → β) (k : β → Int) :
    ∀ l : List α, firstMaxBy k (l.map g) = (firstMaxBy (fun a => k (g a)) l).map g := by
  intro l
  induction l with
  | nil => rfl
  | cons x xs ih =>
    simp only [List.map_cons, firstMaxBy, ih]
    cases h : firstMaxBy (fun a => k (g a)) xs with
    | none => rfl
    | some m => by_cases hk : k (g m) ≤ k (g x) <;> simp [hk]

theorem zip_map_self (f : α → β) : ∀ l : List α,
    l.zip (l.map f) = l.map fun x => (x, f x) := by
  intro l
  induction l with
  | nil => rfl
  | cons x xs ih => simp [ih]

theorem mapM_option_map {f : α → Option β} {g : α → β} :
    ∀ l : List α, (∀ x ∈ l, f x = some (g x)) → l.mapM f = some (l.map g) := by
  intro l
  induction l with
  | nil => intro _; rfl
  | cons x xs ih =>
    intro h
    rw [List.mapM_cons, h x (List.mem_cons_self _ _),
      ih (fun y hy => h y (List.mem_cons_of_mem _ hy))]
    rfl

theorem iterObjsGo_map (vsO : List (List (String × JValue))) :
    iterObjsGo (vsO.map jobj) = .ok vsO := by
  induction vsO with
  | nil => rfl
  | cons v vs ih => simp [iterObjsGo, ih, bind, Except.bind, pure, Except.pure]

/-- Under integer bitrates, the sort step succeeds and its head is the
first maximum by bitrate. -/
theorem sortByBitrate_head (mp4s : List (List (String × JValue)))
    (chosen : List (String × JValue))
    (h7 : ∀ v ∈ mp4s, ∃ b : Int, dictGet v "bitrate" = some (jnum b))
    (h8 : firstMaxBy bitrateOf mp4s = some chosen) :
    ∃ sorted, sortByBitrate mp4s = .ok sorted ∧ sorted.headD [] = chosen := by
  have hAsInt : ∀ v ∈ mp4s, asIntPy (pyGetD v "bitrate" (jnum 0)) = some (bitrateOf v) := by
    intro v hv
    rcases h7 v hv with ⟨b, hb⟩
    simp [pyGetD, hb, asIntPy, bitrateOf]
  unfold sortByBitrate
  by_cases hlen : mp4s.length ≤ 1
  · have hone : mp4s = [chosen] := by
      cases mp4s with
      | nil => simp [firstMaxBy] at h8
      | cons v vs =>
        cases vs with
        | nil =>
          simp only [firstMaxBy] at h8
          cases h8
          rfl
        | cons w ws => simp at hlen
    rw [hone]
    refine ⟨[chosen], ?_, rfl⟩
    simp
  · rw [if_neg hlen]
    rw [mapM_option_map mp4s hAsInt]
    refine ⟨_, rfl, ?_⟩
    have hz : mp4s.zip (mp4s.map bitrateOf) = mp4s.map fun x => (x, bitrateOf x) :=
      zip_map_self bitrateOf mp4s
    rw [hz]
    have hhead : ((sortDescBy Prod.snd (mp4s.map fun x => (x, bitrateOf x))).map Prod.fst).head? =
        some chosen := by
      rw [List.head?_map, sortDescBy_head, firstMaxBy_map (fun x => (x, bitrateOf x)) Prod.snd]
      show ((firstMaxBy bitrateOf mp4s).map _).map _ = _
      rw [h8]
      rfl
    cases hcase : (sortDescBy Prod.snd (mp4s.map fun x => (x, bitrateOf x))).map Prod.fst with
    | nil => rw [hcase] at hhead; simp at hhead
    | cons y ys =>
      rw [hcase] at hhead
      simp only [List.head?] at hhead
      cases hhead
      rfl

/-- C6: on a record whose `mediaDetails` holds one video entry with an MP4
variant list of positive integer bitrates, `extract_video_url` returns the
`url` of the MP4 variant with the maximum bitrate, and that variant is the
first-listed among the maxima: every earlier MP4 variant has a strictly
smaller bitrate and every later one is not larger. -/
theorem C6_best_video_selection (dd m vi : List (String × JValue))
    (vsO : List (List (String × JValue))) (chosen : List (String × JValue)) (u : String)
    (h1 : dictGet dd "mediaDetails" = some (jarr [jobj m]))
    (h2 : pyGet m "type" = jstr "video")
    (h3 : dictGet m "video_info" = some (jobj vi))
    (h4 : dictGet vi "variants" = some (jarr (vsO.map jobj)))
    (h7 : ∀ v ∈ vsO.filter isMp4ContentType,
      ∃ b : Int, dictGet v "bitrate" = some (jnum b) ∧ 0 < b)
    (h8 : firstMaxBy bitrateOf (vsO.filter isMp4ContentType) = some chosen)
    (h9 : dictGet chosen "url" = some (jstr u))
    (h10 : truthy (jstr u) = true) :
    extract_video_url (jobj dd) = jstr u ∧
    ∃ l1 l2, vsO.filter isMp4ContentType = l1 ++ chosen :: l2 ∧
      (∀ x ∈ l1, bitrateOf x < bitrateOf chosen) ∧
      (∀ x ∈ l2, bitrateOf x ≤ bitrateOf chosen) := by
  have hmem : chosen ∈ vsO.filter isMp4ContentType := by
    rcases firstMaxBy_split bitrateOf _ chosen h8 with ⟨l1, l2, hs, _, _⟩
    rw [hs]
    exact List.mem_append.mpr (Or.inr (List.mem_cons_self _ _))
  have hbpos : 0 < bitrateOf chosen := by
    rcases h7 chosen hmem with ⟨b, hb, hbp⟩
    simpa [bitrateOf, pyGetD, hb, asIntPy] using hbp
  have h7' : ∀ v ∈ vsO.filter isMp4ContentType, ∃ b : Int, dictGet v "bitrate" = some (jnum b) :=
    fun v hv => (h7 v hv).imp fun b hb => hb.1
  rcases sortByBitrate_head _ chosen h7' h8 with ⟨sorted, hsort, hhead⟩
  have hbexp : expectInt (pyGetD chosen "bitrate" (jnum 0)) = .ok (bitrateOf chosen) := by
    rcases h7 chosen hmem with ⟨b, hb, _⟩
    simp [pyGetD, hb, expectInt, asIntPy, bitrateOf]
  have hne : (vsO.filter isMp4ContentType).isEmpty = false := by
    cases hf : vsO.filter isMp4ContentType with
    | nil => rw [hf] at h8; simp [firstMaxBy] at h8
    | cons a b => rfl
  have hpme : processMediaEntry (jnull, 0) m = .ok (jstr u, bitrateOf chosen) := by
    unfold processMediaEntry
    simp only [h2, h3, h4, pyIn, pyIndex, pyGet, pyGetD, hasKey, Option.getD_some,
      Option.isSome_some, bind, Except.bind, pure, Except.pure]
    have h2x : (dictGet m "type").getD jnull = jstr "video" := h2
    rw [h2x]
    simp only [decide_True, true_and, and_true, if_true, ite_true, iterObjs, iterObjsGo_map,
      hne, Bool.false_eq_true, if_false, ite_false, hsort, hhead, hbexp]
    have hbexp2 : expectInt ((dictGet chosen "bitrate").getD (jnum 0)) =
        Except.ok (bitrateOf chosen) := hbexp
    rw [hbexp2, h9]
    simp only [Option.getD_some]
    rw [if_pos ⟨hbpos, h10⟩]
  refine ⟨?_, firstMaxBy_split bitrateOf _ chosen h8⟩
  unfold extract_video_url extract_video_url_core
  simp only [pyIn, hasKey, h1, Option.isSome_some, bind, Except.bind, pure, Except.pure,
    if_true, pyIndex]
  have hio : iterObjs (jarr [jobj m]) = .ok [m] := iterObjsGo_map [m]
  simp only [hio, List.foldlM_cons, List.foldlM_nil, bind, Except.bind, hpme, pure,
    Except.pure]
  rw [if_pos ⟨h10, hbpos⟩]

/-- C6 witness: a three-variant list (320 kbit MP4, playlist, 2176 kbit
MP4) resolves to the 2176 kbit MP4 url. -/
theorem C6_best_video_selection_witness :
    extract_video_url (jobj [("mediaDetails", jarr [jobj
      [("type", jstr "video"),
       ("video_info", jobj [("variants", jarr
         [jobj [("content_type", jstr "video/mp4"), ("bitrate", jnum 320), ("url", jstr "lo.mp4")],
          jobj [("content_type", jstr "application/x-mpegURL"), ("url", jstr "pl.m3u8")],
          jobj [("content_type", jstr "video/mp4"), ("bitrate", jnum 2176), ("url", jstr "hi.mp4")]])])]])]) =
      jstr "hi.mp4" :=
  (C6_best_video_selection
    [("mediaDetails", jarr [jobj
      [("type", jstr "video"),
       ("video_info", jobj [("variants", jarr
         [jobj [("content_type", jstr "video/mp4"), ("bitrate", jnum 320), ("url", jstr "lo.mp4")],
          jobj [("content_type", jstr "application/x-mpegURL"), ("url", jstr "pl.m3u8")],
          jobj [("content_type", jstr "video/mp4"), ("bitrate", jnum 2176), ("url", jstr "hi.mp4")]])])]])]
    [("type", jstr "video"),
     ("video_info", jobj [("variants", jarr
       [jobj [("content_type", jstr "video/mp4"), ("bitrate", jnum 320), ("url", jstr "lo.mp4")],
        jobj [("content_type", jstr "application/x-mpegURL"), ("url", jstr "pl.m3u8")],
        jobj [("content_type", jstr "video/mp4"), ("bitrate", jnum 2176), ("url", jstr "hi.mp4")]])])]
    [("variants", jarr
       [jobj [("content_type", jstr "video/mp4"), ("bitrate", jnum 320), ("url", jstr "lo.mp4")],
        jobj [("content_type", jstr "application/x-mpegURL"), ("url", jstr "pl.m3u8")],
        jobj [("content_type", jstr "video/mp4"), ("bitrate", jnum 2176), ("url", jstr "hi.mp4")]])]
    [[("content_type", jstr "video/mp4"), ("bitrate", jnum 320), ("url", jstr "lo.mp4")],
     [("content_type", jstr "application/x-mpegURL"), ("url", jstr "pl.m3u8")],
     [("content_type", jstr "video/mp4"), ("bitrate", jnum 2176), ("url", jstr "hi.mp4")]]
    [("content_type", jstr "video/mp4"), ("bitrate", jnum 2176), ("url", jstr "hi.mp4")]
    "hi.mp4" rfl rfl rfl rfl
    (by
      intro v hv
      fin_cases hv
      · exact ⟨320, rfl, by decide⟩
      · exact ⟨2176, rfl, by decide⟩)
    rfl rfl rfl).1

/-! ## C3: model fallback policy -/

theorem dedupGo_sublist (l : List String) : ∀ seen, List.Sublist (dedupGo seen l) l := by
  induction l with
  | nil => intro seen; exact List.Sublist.refl []
  | cons m rest ih =>
    intro seen
    unfold dedupGo
    by_cases h : m ∈ seen
    · rw [if_pos h]
      exact List.Sublist.cons m (ih seen)
    · rw [if_neg h]
      exact List.Sublist.cons₂ m (ih (m :: seen))

theorem dedupGo_nodup (l : List String) :
    ∀ seen, (dedupGo seen l).Nodup ∧ ∀ x ∈ dedupGo seen l, x ∉ seen := by
  induction l with
  | nil =>
    intro seen
    refine ⟨List.nodup_nil, ?_⟩
    intro x hx
    simp only [dedupGo] at hx
    exact absurd hx (List.not_mem_nil x)
  | cons m rest ih =>
    intro seen
    unfold dedupGo
    by_cases h : m ∈ seen
    · rw [if_pos h]
      exact ih seen
    · rw [if_neg h]
      rcases ih (m :: seen) with ⟨hnd, hnotin⟩
      have hm : m ∉ dedupGo (m :: seen) rest := by
        intro hmem
        exact hnotin m hmem (List.mem_cons_self _ _)
      refine ⟨List.nodup_cons.mpr ⟨hm, hnd⟩, ?_⟩
      intro x hx
      rcases List.mem_cons.mp hx with h1 | h2
      · rw [h1]
        exact h
      · intro hc
        exact hnotin x h2 (List.mem_cons_of_mem _ hc)

/-- One unfolding of the loop on a succeeding candidate. -/
theorem fallbackLoop_cons_success {behav : String → CallResult} {x r : String}
    (total : Nat) (rest : List String) (attempt : Nat) (last : Option String)
    (h : behav x = .success r) :
    fallbackLoop behav total (x :: rest) attempt last = (.ok r, [x]) := by
  simp only [fallbackLoop, h]

/-- One unfolding of the loop on a failing candidate. -/
theorem fallbackLoop_cons_failure {behav : String → CallResult} {x e : String}
    (total : Nat) (rest : List String) (attempt : Nat) (last : Option String)
    (h : behav x = .failure e) :
    fallbackLoop behav total (x :: rest) attempt last =
      (let next := fallbackLoop behav total rest (attempt + 1) (some e)
       if isTransientProvider e = true then (next.1, x :: next.2)
       else if isRateLimited e = true then (next.1, x :: next.2)
       else if attempt < total - 1 then (next.1, x :: next.2)
       else (Except.error e, [x])) := by
  simp only [fallbackLoop, h]

/-- The loop returns the first success and invokes nothing later. -/
theorem fallbackLoop_first_success (behav : String → CallResult) (total : Nat) :
    ∀ (l1 : List String) (m : String) (l2 : List String) (attempt : Nat)
      (last : Option String) (r : String),
      attempt + (l1 ++ m :: l2).length = total →
      (∀ x ∈ l1, isFailure (behav x) = true) →
      behav m = .success r →
      fallbackLoop behav total (l1 ++ m :: l2) attempt last = (.ok r, l1 ++ [m]) := by
  intro l1
  induction l1 with
  | nil =>
    intro m l2 attempt last r _ _ hm
    rw [List.nil_append]
    exact fallbackLoop_cons_success total l2 attempt last hm
  | cons x l1' ih =>
    intro m l2 attempt last r hlen hfail hm
    have hx : isFailure (behav x) = true := hfail x (List.mem_cons_self _ _)
    cases hbx : behav x with
    | success s => rw [hbx] at hx; simp [isFailure] at hx
    | failure e =>
      have hlen' : attempt + 1 + (l1' ++ m :: l2).length = total := by
        simp only [List.cons_append, List.length_cons] at hlen
        omega
      have hnext : fallbackLoop behav total (l1' ++ m :: l2) (attempt + 1) (some e) =
          (.ok r, l1' ++ [m]) :=
        ih m l2 (attempt + 1) (some e) r hlen'
          (fun y hy => hfail y (List.mem_cons_of_mem _ hy)) hm
      have hatt : attempt < total - 1 := by
        simp only [List.cons_append, List.length_cons, List.length_append,
          List.length_cons] at hlen
        omega
      show fallbackLoop behav total (x :: (l1' ++ m :: l2)) attempt last = _
      rw [fallbackLoop_cons_failure total _ attempt last hbx]
      simp only [hnext]
      by_cases ht : isTransientProvider e
      · rw [if_pos ht]
        rfl
      · rw [if_neg ht]
        by_cases hr : isRateLimited e
        · rw [if_pos hr]
          rfl
        · rw [if_neg hr, if_pos hatt]
          rfl

/-- When every candidate fails, the loop raises the last error after
invoking all candidates. -/
theorem fallbackLoop_all_fail (behav : String → CallResult) (total : Nat) :
    ∀ (l : List String) (attempt : Nat) (last : Option String) (mlast elast : String),
      attempt + l.length = total →
      l.getLast? = some mlast →
      behav mlast = .failure elast →
      (∀ x ∈ l, isFailure (behav x) = true) →
      fallbackLoop behav total l attempt last = (.error elast, l) := by
  intro l
  induction l with
  | nil => intro attempt last mlast elast _ hl; simp at hl
  | cons x rest ih =>
    intro attempt last mlast elast hlen hl hbl hfail
    cases rest with
    | nil =>
      have hx : x = mlast := by simpa using hl
      subst hx
      rw [fallbackLoop_cons_failure total [] attempt last hbl]
      have hattempt : ¬attempt < total - 1 := by
        simp only [List.length_cons, List.length_nil] at hlen
        omega
      have hbase : fallbackLoop behav total [] (attempt + 1) (some elast) =
          (.error elast, []) := rfl
      simp only [hbase]
      by_cases ht : isTransientProvider elast
      · rw [if_pos ht]
      · rw [if_neg ht]
        by_cases hr : isRateLimited elast
        · rw [if_pos hr]
        · rw [if_neg hr, if_neg hattempt]
    | cons y rest' =>
      have hx : isFailure (behav x) = true := hfail x (List.mem_cons_self _ _)
      cases hbx : behav x with
      | success s => rw [hbx] at hx; simp [isFailure] at hx
      | failure e =>
        have hlen' : attempt + 1 + (y :: rest').length = total := by
          simp only [List.length_cons] at hlen ⊢
          omega
        have hl' : (y :: rest').getLast? = some mlast := by
          rw [← hl]
          rfl
        have hnext : fallbackLoop behav total (y :: rest') (attempt + 1) (some e) =
            (.error elast, y :: rest') :=
          ih (attempt + 1) (some e) mlast elast hlen' hl' hbl
            (fun z hz => hfail z (List.mem_cons_of_mem _ hz))
        have hatt : attempt < total - 1 := by
          simp only [List.length_cons] at hlen
          omega
        rw [fallbackLoop_cons_failure total _ attempt last hbx]
        simp only [hnext]
        by_cases ht : isTransientProvider e
        · rw [if_pos ht]
        · rw [if_neg ht]
          by_cases hr : isRateLimited e
          · rw [if_pos hr]
          · rw [if_neg hr, if_pos hatt]

/-- C3: the candidate list is the deduplicated fallback list headed by the
primary model (first occurrences kept, order preserved); the loop returns
the response of the first succeeding candidate without invoking any later
one; failures on non-final candidates — whether gateway faults, rate
limits, or anything else — continue to the next candidate; and when every
candidate fails the error of the final candidate is raised after all
candidates were invoked. -/
theorem C3_fallback_policy (behav : String → CallResult) (primary : String) :
    (dedupPreservingOrder (fallback_models primary)).head? = some primary ∧
    (dedupPreservingOrder (fallback_models primary)).Nodup ∧
    List.Sublist (dedupPreservingOrder (fallback_models primary)) (fallback_models primary) ∧
    (∀ (l1 : List String) (m : String) (l2 : List String) (r : String),
      dedupPreservingOrder (fallback_models primary) = l1 ++ m :: l2 →
      (∀ x ∈ l1, isFailure (behav x) = true) →
      behav m = .success r →
      generate_with_fallback behav primary = (.ok r, l1 ++ [m])) ∧
    (∀ (mlast elast : String),
      (dedupPreservingOrder (fallback_models primary)).getLast? = some mlast →
      behav mlast = .failure elast →
      (∀ x ∈ dedupPreservingOrder (fallback_models primary), isFailure (behav x) = true) →
      generate_with_fallback behav primary = (.error elast, dedupPreservingOrder (fallback_models primary))) := by
  refine ⟨?_, (dedupGo_nodup _ []).1, dedupGo_sublist _ [], ?_, ?_⟩
  · show (dedupGo [] (primary :: _)).head? = some primary
    unfold dedupGo
    rw [if_neg (by simp)]
    rfl
  · intro l1 m l2 r hsplit hfail hm
    unfold generate_with_fallback
    rw [hsplit]
    exact fallbackLoop_first_success behav _ l1 m l2 0 none r (by rw [← hsplit]; omega) hfail hm
  · intro mlast elast hl hbl hfail
    unfold generate_with_fallback
    exact fallbackLoop_all_fail behav _ _ 0 none mlast elast (by omega) hl hbl hfail

/-- C3 witness: primary fails with `502 Bad Gateway`, the first fallback
candidate succeeds, the remaining candidates are never invoked. -/
theorem C3_fallback_policy_witness :
    generate_with_fallback behavScenario "m1" =
      (.ok "R2", ["m1", "qwen/qwen-2.5-72b-instruct:free"]) :=
  (C3_fallback_policy behavScenario "m1").2.2.2.1 ["m1"]
    "qwen/qwen-2.5-72b-instruct:free"
    ["microsoft/phi-3-medium-4k-instruct:free", "deepseek/deepseek-r1-0528:free"] "R2"
    rfl (by intro x hx; fin_cases hx; rfl) rfl

/-! ## C10: batch statistics -/

/-- A thread is skipped exactly when `should_process_thread` is false. -/
theorem not_should_process_iff_skipped (se f : Bool) :
    (!should_process_thread se f) = (se && !f) := by
  cases se <;> cases f <;> rfl

theorem processAllGo_spec (force : Bool) :
    ∀ (threads : List ThreadTask) (st : BatchStats),
      (processAllGo force st threads).1.processed = st.processed + threads.length ∧
      (processAllGo force st threads).1.success + (processAllGo force st threads).1.errors +
          (threads.filter (isSkipped force)).length =
        st.success + st.errors + threads.length ∧
      (processAllGo force st threads).2.length = threads.length ∧
      (∀ i : Fin threads.length, isSkipped force (threads.get i) = true →
        (processAllGo force st threads).2.getD i.val false = true) := by
  intro threads
  induction threads with
  | nil =>
    intro st
    refine ⟨rfl, by simp [processAllGo], rfl, ?_⟩
    intro i
    exact absurd i.isLt (by simp)
  | cons t rest ih =>
    intro st
    by_cases hskip : isSkipped force t = true
    · have hstep : process_single_thread force st t =
          ({ st with processed := st.processed + 1 }, true) := by
        unfold process_single_thread
        rw [if_pos]
        rw [not_should_process_iff_skipped]
        exact hskip
      have hgo : processAllGo force st (t :: rest) =
          ((processAllGo force { st with processed := st.processed + 1 } rest).1,
            true :: (processAllGo force { st with processed := st.processed + 1 } rest).2) := by
        simp only [processAllGo, hstep]
      rcases ih { st with processed := st.processed + 1 } with ⟨h1, h2, h3, h4⟩
      refine ⟨?_, ?_, ?_, ?_⟩
      · rw [hgo]
        simp only [h1, List.length_cons]
        omega
      · rw [hgo]
        simp only [List.filter_cons, hskip, if_true, List.length_cons]
        simp only [List.length_cons] at h2 ⊢
        omega
      · rw [hgo]
        simp only [List.length_cons, h3]
      · intro i hi
        rw [hgo]
        cases i using Fin.cases with
        | zero => rfl
        | succ j =>
          have := h4 ⟨j.val, by simpa using j.isLt⟩
          simp only [List.get] at hi this ⊢
          exact this hi
    · have hskipf : isSkipped force t = false := Bool.eq_false_iff.mpr hskip
      have hproc : (!should_process_thread t.scriptExists force) = false := by
        rw [not_should_process_iff_skipped]
        exact hskipf
      have hstep : ∃ st' b, process_single_thread force st t = (st', b) ∧
          st'.processed = st.processed + 1 ∧
          st'.success + st'.errors = st.success + st.errors + 1 := by
        unfold process_single_thread
        rw [hproc]
        simp only [Bool.false_eq_true, if_false]
        cases t.outcome with
        | saveOk => exact ⟨_, _, rfl, rfl, by simp [BatchStats.errors]; omega⟩
        | saveFail => exact ⟨_, _, rfl, rfl, by simp; omega⟩
        | genFail => exact ⟨_, _, rfl, rfl, by simp; omega⟩
        | raised => exact ⟨_, _, rfl, rfl, by simp; omega⟩
      rcases hstep with ⟨st', b, hstep, hp, hse⟩
      have hgo : processAllGo force st (t :: rest) =
          ((processAllGo force st' rest).1, b :: (processAllGo force st' rest).2) := by
        simp only [processAllGo, hstep]
      rcases ih st' with ⟨h1, h2, h3, h4⟩
      refine ⟨?_, ?_, ?_, ?_⟩
      · rw [hgo]
        simp only [h1, hp, List.length_cons]
        omega
      · rw [hgo]
        simp only [List.filter_cons, hskipf, Bool.false_eq_true, if_false, List.length_cons]
        omega
      · rw [hgo]
        simp only [List.length_cons, h3]
      · intro i hi
        rw [hgo]
        cases i using Fin.cases with
        | zero =>
          simp only [List.get] at hi
          rw [hi] at hskipf
          cases hskipf
        | succ j =>
          have := h4 ⟨j.val, by simpa using j.isLt⟩
          simp only [List.get] at hi this ⊢
          exact this hi

/-- C10: after a batch run, `success + errors ≤ processed`, the difference
is exactly the number of threads skipped because `tiktok_script.json`
already existed with `force_regenerate` false, and every skipped thread is
reported as a successful item while being counted in neither `success` nor
`errors`. -/
theorem C10_batch_statistics (force : Bool) (threads : List ThreadTask) :
    (process_all_threads force threads).1.success + (process_all_threads force threads).1.errors ≤
        (process_all_threads force threads).1.processed ∧
    (process_all_threads force threads).1.processed = threads.length ∧
    (process_all_threads force threads).1.processed -
        ((process_all_threads force threads).1.success +
          (process_all_threads force threads).1.errors) =
      (threads.filter (isSkipped force)).length ∧
    (process_all_threads force threads).2.length = threads.length ∧
    (∀ i : Fin threads.length, isSkipped force (threads.get i) = true →
      (process_all_threads force threads).2.getD i.val false = true) := by
  cases threads with
  | nil => exact ⟨le_refl 0, rfl, rfl, rfl, fun i => absurd i.isLt (by simp)⟩
  | cons t rest =>
    have hne : (t :: rest).isEmpty = false := rfl
    have hpat : process_all_threads force (t :: rest) =
        processAllGo force ⟨0, 0, 0⟩ (t :: rest) := by
      unfold process_all_threads
      rw [hne]
      rfl
    rcases processAllGo_spec force (t :: rest) ⟨0, 0, 0⟩ with ⟨h1, h2, h3, h4⟩
    rw [hpat]
    have h1' : (processAllGo force ⟨0, 0, 0⟩ (t :: rest)).1.processed = (t :: rest).length := by
      simpa using h1
    have h2' : (processAllGo force ⟨0, 0, 0⟩ (t :: rest)).1.success +
        (processAllGo force ⟨0, 0, 0⟩ (t :: rest)).1.errors +
        (List.filter (isSkipped force) (t :: rest)).length = (t :: rest).length := by
      simpa using h2
    refine ⟨?_, h1', ?_, h3, h4⟩
    · omega
    · omega

/-- C10 witness: one skipped, one success, one failure. -/
theorem C10_batch_statistics_witness :
    (process_all_threads false [⟨true, .saveOk⟩, ⟨false, .saveOk⟩, ⟨false, .genFail⟩]).1 =
      ⟨3, 1, 1⟩ ∧
    (process_all_threads false [⟨true, .saveOk⟩, ⟨false, .saveOk⟩, ⟨false, .genFail⟩]).2 =
      [true, true, false] ∧
    (process_all_threads false [⟨true, .saveOk⟩, ⟨false, .saveOk⟩, ⟨false, .genFail⟩]).1.success +
        (process_all_threads false [⟨true, .saveOk⟩, ⟨false, .saveOk⟩, ⟨false, .genFail⟩]).1.errors ≤
      (process_all_threads false [⟨true, .saveOk⟩, ⟨false, .saveOk⟩, ⟨false, .genFail⟩]).1.processed :=
  ⟨rfl, rfl,
    (C10_batch_statistics false [⟨true, .saveOk⟩, ⟨false, .saveOk⟩, ⟨false, .genFail⟩]).1⟩

/-! ## C4: timing validation -/

theorem dictGet_dictSet_self (d : List (String × JValue)) (k : String) (v : JValue) :
    dictGet (dictSet d k v) k = some v := by
  induction d with
  | nil => simp [dictSet, dictGet]
  | cons p rest ih =>
    by_cases h : p.1 = k
    · simp [dictSet, dictGet, h]
    · simp only [dictSet, h, if_false]
      cases p with
      | mk k1 v1 =>
        simp only at h
        simp [dictGet, h, ih]

theorem dictGet_dictSet_ne (d : List (String × JValue)) (k : String) (v : JValue)
    (k' : String) (h : k' ≠ k) : dictGet (dictSet d k v) k' = dictGet d k' := by
  induction d with
  | nil => simp [dictSet, dictGet, h, Ne.symm h]
  | cons p rest ih =>
    by_cases hp : p.1 = k
    · cases p with
      | mk k1 v1 =>
        simp only at hp
        subst hp
        simp [dictSet, dictGet, h, Ne.symm h]
    · cases p with
      | mk k1 v1 =>
        simp only at hp
        simp only [dictSet, hp, if_false]
        by_cases hk1 : k1 = k'
        · simp [dictGet, hk1]
        · simp [dictGet, hk1, Ne.symm hk1, ih]

theorem dictSet_same (d : List (String × JValue)) (k : String) (v : JValue)
    (h : dictGet d k = some v) : dictSet d k v = d := by
  induction d with
  | nil => simp [dictGet] at h
  | cons p rest ih =>
    cases p with
    | mk k1 v1 =>
      by_cases hk : k1 = k
      · subst hk
        simp only [dictGet, if_pos rfl] at h
        cases h
        simp [dictSet]
      · simp only [dictGet, hk, if_false] at h
        simp only [dictSet, hk, if_false]
        rw [ih h]

theorem sectionDefault_pos (name : String) : 0 < sectionDefault name := by
  unfold sectionDefault
  split <;> norm_num

theorem effDur_pos (name : String) (n : Int) : 0 < effDur name n := by
  unfold effDur
  by_cases h : n ≤ 0
  · rw [if_pos h]
    exact sectionDefault_pos name
  · rw [if_neg h]
    omega


theorem runCue_ok (start D : Int) (cd : List (String × JValue)) (t dur : Int)
    (ht : dictGet cd "timestamp" = some (jnum t))
    (hd : dictGet cd "duration" = some (jnum dur))
    (hD : 0 < D) (hdur : 0 < dur) (hdle : dur ≤ D) :
    ∃ cd', runCue start D cd = .ok cd' ∧ cueWithinWindow start D (jobj cd') = true := by
  have hts : pyGetD cd "timestamp" (jnum 0) = jnum t := by simp [pyGetD, ht]
  have hds : pyGetD cd "duration" (jnum 3) = jnum dur := by simp [pyGetD, hd]
  have hne1 : ("duration" : String) ≠ "timestamp" := by decide
  have hne2 : ("timestamp" : String) ≠ "duration" := by decide
  unfold runCue
  rw [hts, hds]
  simp only [asIntPy]
  by_cases h1 : t < start
  · rw [if_pos h1]
    unfold clampCueDuration
    simp only [asIntPy]
    rw [if_neg (by omega : ¬ start + D - start < dur)]
    refine ⟨_, rfl, ?_⟩
    simp only [cueWithinWindow, dictGet_dictSet_self,
      dictGet_dictSet_ne cd "timestamp" (jnum start) "duration" hne1, hd,
      Bool.and_eq_true, decide_eq_true_eq]
    omega
  · rw [if_neg h1]
    by_cases h2 : start + D ≤ t
    · rw [if_pos h2]
      unfold clampCueDuration
      simp only [asIntPy]
      rw [if_neg (by omega : ¬ start + D - (start + D - dur) < dur)]
      refine ⟨_, rfl, ?_⟩
      simp only [cueWithinWindow, dictGet_dictSet_self,
        dictGet_dictSet_ne cd "timestamp" (jnum (start + D - dur)) "duration" hne1, hd,
        Bool.and_eq_true, decide_eq_true_eq]
      omega
    · rw [if_neg h2]
      rw [if_pos (by simp [hasKey, ht] : hasKey cd "timestamp" = true)]
      unfold clampCueDuration
      simp only [asIntPy]
      by_cases h3 : start + D - t < dur
      · rw [if_pos h3]
        refine ⟨_, rfl, ?_⟩
        simp only [cueWithinWindow, dictGet_dictSet_self,
          dictGet_dictSet_ne cd "duration" (jnum (start + D - t)) "timestamp" hne2, ht,
          Bool.and_eq_true, decide_eq_true_eq]
        omega
      · rw [if_neg h3]
        refine ⟨_, rfl, ?_⟩
        simp only [cueWithinWindow, ht, hd, Bool.and_eq_true, decide_eq_true_eq]
        omega

end XToScript

namespace XToScript

open JValue

theorem cueShapeOk_destruct (D : Int) (c : JValue) (h : cueShapeOk D c = true) :
    ∃ cd t dur, c = jobj cd ∧ dictGet cd "timestamp" = some (jnum t) ∧
      dictGet cd "duration" = some (jnum dur) ∧ 0 < dur ∧ dur ≤ D := by
  cases c with
  | jobj cd =>
    cases hts : dictGet cd "timestamp" with
    | none => simp [cueShapeOk, hts] at h
    | some tv =>
      cases tv with
      | jnum t =>
        cases hds : dictGet cd "duration" with
        | none => simp [cueShapeOk, hts, hds] at h
        | some dv =>
          cases dv with
          | jnum dur =>
            simp only [cueShapeOk, hts, hds, Bool.and_eq_true, decide_eq_true_eq] at h
            exact ⟨cd, t, dur, rfl, hts, hds, h.1, h.2⟩
          | jnull => simp [cueShapeOk, hts, hds] at h
          | jbool b => simp [cueShapeOk, hts, hds] at h
          | jstr s => simp [cueShapeOk, hts, hds] at h
          | jarr xs => simp [cueShapeOk, hts, hds] at h
          | jobj o => simp [cueShapeOk, hts, hds] at h
      | jnull => simp [cueShapeOk, hts] at h
      | jbool b => simp [cueShapeOk, hts] at h
      | jstr s => simp [cueShapeOk, hts] at h
      | jarr xs => simp [cueShapeOk, hts] at h
      | jobj o => simp [cueShapeOk, hts] at h
  | jnull => simp [cueShapeOk] at h
  | jbool b => simp [cueShapeOk] at h
  | jnum n => simp [cueShapeOk] at h
  | jstr s => simp [cueShapeOk] at h
  | jarr xs => simp [cueShapeOk] at h

theorem runCues_ok (start D : Int) (hD : 0 < D) :
    ∀ cs : List JValue, (∀ c ∈ cs, cueShapeOk D c = true) →
      ∃ cs', runCues start D cs = .ok cs' ∧
        ∀ c' ∈ cs', cueWithinWindow start D c' = true := by
  intro cs
  induction cs with
  | nil => intro _; exact ⟨[], rfl, by simp⟩
  | cons c rest ih =>
    intro h
    rcases cueShapeOk_destruct D c (h c (List.mem_cons_self _ _)) with
      ⟨cd, t, dur, hc, hts, hds, hdur, hdle⟩
    rcases runCue_ok start D cd t dur hts hds hD hdur hdle with ⟨cd', hcue, hwin⟩
    rcases ih (fun x hx => h x (List.mem_cons_of_mem _ hx)) with ⟨rest', hrest, hwins⟩
    subst hc
    refine ⟨jobj cd' :: rest', ?_, ?_⟩
    · simp only [runCues, hcue, hrest]
    · intro c' hc'
      rcases List.mem_cons.mp hc' with h1 | h2
      · rw [h1]; exact hwin
      · exact hwins c' h2

end XToScript

namespace XToScript

open JValue

theorem sectionShapeOk_destruct (name : String) (d : List (String × JValue))
    (h : sectionShapeOk name d = true) :
    ∃ sec n cs, dictGet d name = some (jobj sec) ∧
      dictGet sec "duration_seconds" = some (jnum n) ∧
      dictGet sec "visual_cues" = some (jarr cs) ∧
      (∀ c ∈ cs, cueShapeOk (effDur name n) c = true) ∧
      effDurOf d name = effDur name n := by
  unfold sectionShapeOk at h
  cases hsec : dictGet d name with
  | none => simp [hsec] at h
  | some sv =>
    simp only [hsec] at h
    cases sv with
    | jobj sec =>
      cases hn : dictGet sec "duration_seconds" with
      | none => simp [hn] at h
      | some nv =>
        simp only [hn] at h
        cases nv with
        | jnum n =>
          cases hcs : dictGet sec "visual_cues" with
          | none => simp [hcs] at h
          | some cv =>
            simp only [hcs] at h
            cases cv with
            | jarr cs =>
              refine ⟨sec, n, cs, rfl, hn, hcs,
                by simpa [List.all_eq_true] using h, ?_⟩
              simp only [effDurOf, hsec, hn]
            | jnull => simp at h
            | jbool b => simp at h
            | jnum m => simp at h
            | jstr s => simp at h
            | jobj o => simp at h
        | jnull => simp at h
        | jbool b => simp at h
        | jstr s => simp at h
        | jarr xs => simp at h
        | jobj o => simp at h
    | jnull => simp at h
    | jbool b => simp at h
    | jnum m => simp at h
    | jstr s => simp at h
    | jarr xs => simp at h

theorem runSection_ok (d : List (String × JValue)) (name : String) (start : Int)
    (h : sectionShapeOk name d = true) :
    ∃ d', runSection d name start = .ok (d', start + effDurOf d name) ∧
      sectionOutOk d' name start (effDurOf d name) = true ∧
      ∀ k, k ≠ name → dictGet d' k = dictGet d k := by
  rcases sectionShapeOk_destruct name d h with ⟨sec, n, cs, hsec, hn, hcs, hcues, heff⟩
  have hDpos : 0 < effDur name n := effDur_pos name n
  have hne1 : ("visual_cues" : String) ≠ "duration_seconds" := by decide
  rcases runCues_ok start (effDur name n) hDpos cs hcues with ⟨cs', hrun, hwins⟩
  have hkey : hasKey d name = true := by simp [hasKey, hsec]
  -- the section after the (possible) duration defaulting
  have hsec1 : ∃ sec1,
      (if n ≤ 0 then dictSet sec "duration_seconds" (jnum (sectionDefault name)) else sec) = sec1 ∧
      dictGet sec1 "duration_seconds" = some (jnum (effDur name n)) ∧
      dictGet sec1 "visual_cues" = some (jarr cs) := by
    by_cases hn0 : n ≤ 0
    · refine ⟨_, rfl, ?_, ?_⟩
      · rw [if_pos hn0, dictGet_dictSet_self]
        unfold effDur
        rw [if_pos hn0]
      · rw [if_pos hn0, dictGet_dictSet_ne _ _ _ _ hne1]
        exact hcs
    · refine ⟨sec, by rw [if_neg hn0], ?_, hcs⟩
      rw [hn]
      unfold effDur
      rw [if_neg hn0]
  rcases hsec1 with ⟨sec1, hsec1e, hdur1, hcs1⟩
  have hkey1 : hasKey sec1 "visual_cues" = true := by simp [hasKey, hcs1]
  have e1 : pyGetD d name (jobj []) = jobj sec := by simp [pyGetD, hsec]
  have e2 : pyGetD sec "duration_seconds" (jnum 0) = jnum n := by simp [pyGetD, hn]
  have e3 : pyGetD sec1 "visual_cues" (jarr []) = jarr cs := by simp [pyGetD, hcs1]
  refine ⟨dictSet d name (jobj (dictSet sec1 "visual_cues" (jarr cs'))), ?_, ?_, ?_⟩
  · rw [heff]
    by_cases hn0 : n ≤ 0
    · have heD : effDur name n = sectionDefault name := by
        unfold effDur; rw [if_pos hn0]
      rw [heD] at hrun ⊢
      rw [if_pos hn0] at hsec1e
      simp only [runSection, e1, e2, asIntPy, hn0, if_true, hkey, hsec1e, e3, hrun, hkey1]
    · have heD : effDur name n = n := by
        unfold effDur; rw [if_neg hn0]
      rw [heD] at hrun ⊢
      rw [if_neg hn0] at hsec1e
      subst hsec1e
      simp only [runSection, e1, e2, asIntPy, hn0, if_false, hkey, if_true, e3,
        hrun, hkey1]
  · rw [heff]
    simp only [sectionOutOk, dictGet_dictSet_self, dictGet_dictSet_ne _ _ _ _ (Ne.symm hne1),
      hdur1, decide_eq_true_eq, Bool.and_eq_true, List.all_eq_true]
    exact ⟨⟨trivial, hDpos⟩, fun c hc => hwins c hc⟩
  · intro k hk
    exact dictGet_dictSet_ne _ _ _ _ hk

theorem celt_preserve (script : List (String × JValue)) (totalJ : JValue)
    (k : String) (hk : k ≠ "visual_timeline") :
    dictGet (create_enhanced_visual_timeline script totalJ) k = dictGet script k := by
  have hpres : ∀ s0 : List (String × JValue), ∀ v,
      dictGet (dictSet s0 "visual_timeline" v) k = dictGet s0 k :=
    fun s0 v => dictGet_dictSet_ne _ _ _ _ hk
  have hg : ∀ s0 : List (String × JValue),
      (if hasKey script "visual_timeline" then script
       else dictSet script "visual_timeline" (freshTimeline totalJ)) = s0 →
      dictGet s0 k = dictGet script k := by
    intro s0 hs0
    subst hs0
    by_cases h : hasKey script "visual_timeline" = true
    · rw [if_pos h]
    · rw [if_neg h]
      exact hpres script _
  simp only [create_enhanced_visual_timeline]
  split
  · split
    · rw [hpres]
      exact hg _ rfl
    · exact hg _ rfl
  · exact hg _ rfl

theorem sectionShapeOk_congr (name : String) (d1 d2 : List (String × JValue))
    (h : dictGet d1 name = dictGet d2 name) :
    sectionShapeOk name d1 = sectionShapeOk name d2 := by
  unfold sectionShapeOk
  rw [h]

theorem effDurOf_congr (d1 d2 : List (String × JValue)) (name : String)
    (h : dictGet d1 name = dictGet d2 name) :
    effDurOf d1 name = effDurOf d2 name := by
  unfold effDurOf
  rw [h]

theorem sectionOutOk_congr (d1 d2 : List (String × JValue)) (name : String) (start D : Int)
    (h : dictGet d1 name = dictGet d2 name) :
    sectionOutOk d1 name start D = sectionOutOk d2 name start D := by
  unfold sectionOutOk
  rw [h]

set_option maxRecDepth 4000 in
/-- C4 (counterexample): on a hook cue with timestamp 100 and duration 100, the
clamp of lines 480-484 writes timestamp `start + D - duration = -85`, which lies
below the hook window `[0, 15)`; the claimed invariant fails. -/
theorem C4_counterexample :
    pyGetJ (pyGetJ (validate_and_enhance_timing (jobj cex4)) "hook") "duration_seconds"
        = jnum 15 ∧
    pyGetJ (jIndex (pyGetJ (pyGetJ (validate_and_enhance_timing (jobj cex4)) "hook")
        "visual_cues") 0) "timestamp" = jnum (-85) ∧
    ¬ ((0 : Int) ≤ -85) :=
  ⟨rfl, rfl, by decide⟩

/-- C4: for every script whose three sections are well-shaped (integer
duration, cue list of dicts with integer timestamps and durations, each cue
duration positive and at most the section duration) and whose metadata is a
dict or absent, `validate_and_enhance_timing` produces sections of positive
duration equal to the defaulted input duration, with every cue timestamp in
`[sectionStart, sectionStart + sectionDuration)` and every cue end at most
the section end, sectionStart accumulating hook, intro, explainer in order. -/
theorem C4_timing_validation (d : List (String × JValue))
    (h : wfTimingInput d = true) :
    timingOutputOk d (validate_and_enhance_timing (jobj d)) = true := by
  have hsplit := h
  unfold wfTimingInput at hsplit
  simp only [sectionNames, List.all_cons, List.all_nil, Bool.and_true,
    Bool.and_eq_true] at hsplit
  obtain ⟨⟨hH, hI, hE⟩, hM⟩ := hsplit
  have hne : d.isEmpty = false := by
    rcases sectionShapeOk_destruct _ _ hH with ⟨sec, _, _, hsec, _⟩
    cases d with
    | nil => simp [dictGet] at hsec
    | cons p rest => rfl
  have hmd : ∃ md, pyGetD d "metadata" (jobj []) = jobj md := by
    unfold metadataShapeOk at hM
    cases hm : dictGet d "metadata" with
    | none => exact ⟨[], by simp [pyGetD, hm]⟩
    | some v =>
      simp only [hm] at hM
      cases v with
      | jobj md => exact ⟨md, by simp [pyGetD, hm]⟩
      | jnull => simp at hM
      | jbool b => simp at hM
      | jnum n => simp at hM
      | jstr s => simp at hM
      | jarr xs => simp at hM
  rcases hmd with ⟨md, hmd⟩
  rcases runSection_ok d "hook" 0 hH with ⟨d1, hr1, hout1, hpre1⟩
  have hIg : dictGet d1 "intro" = dictGet d "intro" := hpre1 "intro" (by decide)
  have hEg1 : dictGet d1 "explainer" = dictGet d "explainer" := hpre1 "explainer" (by decide)
  have hI1 : sectionShapeOk "intro" d1 = true := by
    rw [sectionShapeOk_congr _ _ _ hIg]; exact hI
  rcases runSection_ok d1 "intro" (effDurOf d "hook") hI1 with ⟨d2, hr2, hout2, hpre2⟩
  have heI : effDurOf d1 "intro" = effDurOf d "intro" := effDurOf_congr _ _ _ hIg
  rw [heI] at hr2 hout2
  have hHg2 : dictGet d2 "hook" = dictGet d1 "hook" := hpre2 "hook" (by decide)
  have hEg2 : dictGet d2 "explainer" = dictGet d1 "explainer" := hpre2 "explainer" (by decide)
  have hE2 : sectionShapeOk "explainer" d2 = true := by
    rw [sectionShapeOk_congr _ _ _ (hEg2.trans hEg1)]; exact hE
  rcases runSection_ok d2 "explainer" (effDurOf d "hook" + effDurOf d "intro") hE2
    with ⟨d3, hr3, hout3, hpre3⟩
  have heE : effDurOf d2 "explainer" = effDurOf d "explainer" :=
    effDurOf_congr _ _ _ (hEg2.trans hEg1)
  rw [heE] at hr3 hout3
  have hHg3 : dictGet d3 "hook" = dictGet d1 "hook" :=
    (hpre3 "hook" (by decide)).trans hHg2
  have hIg3 : dictGet d3 "intro" = dictGet d2 "intro" := hpre3 "intro" (by decide)
  have hview : validate_and_enhance_timing (jobj d) =
      jobj (create_enhanced_visual_timeline d3 (pyGetD md "total_duration" (jnum 60))) := by
    simp only [validate_and_enhance_timing, hne, Bool.false_eq_true, if_false, hmd,
      zero_add, hr1, hr2, hr3]
  rw [hview]
  simp only [timingOutputOk, Bool.and_eq_true]
  have hcp : ∀ k : String, k ≠ "visual_timeline" →
      dictGet (create_enhanced_visual_timeline d3 (pyGetD md "total_duration" (jnum 60))) k
        = dictGet d3 k :=
    fun k hk => celt_preserve d3 _ k hk
  refine ⟨⟨?_, ?_⟩, ?_⟩
  · rw [sectionOutOk_congr _ d1 _ _ _ ((hcp "hook" (by decide)).trans hHg3)]
    exact hout1
  · rw [sectionOutOk_congr _ d2 _ _ _ ((hcp "intro" (by decide)).trans hIg3)]
    exact hout2
  · rw [sectionOutOk_congr _ d3 _ _ _ (hcp "explainer" (by decide))]
    exact hout3

set_option maxRecDepth 4000 in
theorem C4_timing_validation_witness :
    wfTimingInput wit4 = true ∧
      timingOutputOk wit4 (validate_and_enhance_timing (jobj wit4)) = true :=
  ⟨rfl, C4_timing_validation wit4 rfl⟩

set_option maxRecDepth 2000 in
/-- C2 (counterexample): the stripped response " 42 " parses directly as the
JSON number 42, which timing validation returns unchanged; the normalizer
hands back a bare number with none of the four required sections. -/
theorem C2_counterexample :
    normalize_script_response "engaging" 60 " 42 " = jnum 42 ∧
      hasKeyJ (normalize_script_response "engaging" 60 " 42 ") "hook" = false :=
  ⟨rfl, rfl⟩

/-- C2: when the direct parse of the stripped response fails, every
brace-sliced candidate fails to parse, and the syntax-fixed candidate (when
distinct) also fails, the normalizer returns the fixed placeholder artifact,
which carries the hook, intro, explainer and metadata sections and whose
metadata.raw_content is the stripped response text. -/
theorem C2_placeholder_on_total_failure (style : String) (dur : Int) (response : String)
    (h1 : jparse (pyStrip response) = none)
    (h2 : ∀ s, braceSlice (pyStrip response) = some s → jparse s = none)
    (h3 : ∀ s, braceSlice (pyStrip response) = some s →
      fix_common_json_errors s ≠ s → jparse (fix_common_json_errors s) = none) :
    normalize_script_response style dur response
        = placeholderArtifact style dur (pyStrip response) ∧
      hasKeyJ (placeholderArtifact style dur (pyStrip response)) "hook" = true ∧
      hasKeyJ (placeholderArtifact style dur (pyStrip response)) "intro" = true ∧
      hasKeyJ (placeholderArtifact style dur (pyStrip response)) "explainer" = true ∧
      hasKeyJ (placeholderArtifact style dur (pyStrip response)) "metadata" = true ∧
      pyGetJ (pyGetJ (placeholderArtifact style dur (pyStrip response)) "metadata")
          "raw_content" = jstr (pyStrip response) := by
  refine ⟨?_, rfl, rfl, rfl, rfl, rfl⟩
  simp only [normalize_script_response, h1]
  cases hb : braceSlice (pyStrip response) with
  | none => rfl
  | some s =>
    simp only [h2 s hb]
    by_cases hf : fix_common_json_errors s = s
    · simp only [hf, ne_eq, not_true_eq_false, if_false]
    · simp only [ne_eq, hf, not_false_eq_true, if_true, h3 s hb hf]

theorem C2_placeholder_on_total_failure_witness :
    jparse (pyStrip "x") = none ∧ braceSlice (pyStrip "x") = none ∧
      normalize_script_response "fast" 30 "x" = placeholderArtifact "fast" 30 (pyStrip "x") :=
  ⟨rfl, rfl, (C2_placeholder_on_total_failure "fast" 30 "x" rfl
      (fun s hs => Option.noConfusion ((rfl : braceSlice (pyStrip "x") = none) ▸ hs))
      (fun s hs _ => Option.noConfusion ((rfl : braceSlice (pyStrip "x") = none) ▸ hs))).1⟩

set_option maxRecDepth 8000 in
/-- C7 (counterexample): `generate_script` has no fenced-block stage.  A fenced
JSON array parses on its own, yet the normalizer — unable to brace-slice a
text with no curly braces — falls through to the placeholder instead of the
inner array. -/
theorem C7_counterexample :
    jparse "[1, 2]" = some (jarr [jnum 1, jnum 2]) ∧
      validate_and_enhance_timing (jarr [jnum 1, jnum 2]) = jarr [jnum 1, jnum 2] ∧
      normalize_script_response "engaging" 60 "```json\n[1, 2]\n```"
        = placeholderArtifact "engaging" 60 "```json\n[1, 2]\n```" :=
  ⟨rfl, rfl, rfl⟩

/-- C7: when the direct whole-string parse of the stripped output fails, the
normalizer of `generate_script` recovers a fenced JSON object only through
brace slicing: if the slice from the first opening to the last closing brace
parses, the result is that inner object after timing validation. -/
theorem C7_brace_slice_normalization (style : String) (dur : Int) (raw s : String)
    (v : JValue)
    (h1 : jparse (pyStrip raw) = none)
    (h2 : braceSlice (pyStrip raw) = some s)
    (h3 : jparse s = some v) :
    normalize_script_response style dur raw = validate_and_enhance_timing v := by
  simp only [normalize_script_response, h1, h2, h3]

set_option maxRecDepth 8000 in
theorem C7_brace_slice_normalization_witness :
    jparse (pyStrip "```json\n\x7b\"a\": 1\x7d\n```") = none ∧
      braceSlice (pyStrip "```json\n\x7b\"a\": 1\x7d\n```") = some "\x7b\"a\": 1\x7d" ∧
      jparse "\x7b\"a\": 1\x7d" = some (jobj [("a", jnum 1)]) ∧
      normalize_script_response "fast" 30 "```json\n\x7b\"a\": 1\x7d\n```"
        = validate_and_enhance_timing (jobj [("a", jnum 1)]) :=
  ⟨rfl, rfl, rfl,
    C7_brace_slice_normalization "fast" 30 "```json\n\x7b\"a\": 1\x7d\n```"
      "\x7b\"a\": 1\x7d" (jobj [("a", jnum 1)]) rfl rfl rfl⟩

theorem toNat_digitChar (k : Nat) (h : k < 10) : (digitChar k).toNat = 48 + k := by
  interval_cases k <;> decide

theorem isDigitCh_digitChar (k : Nat) (h : k < 10) : isDigitCh (digitChar k) = true := by
  simp only [isDigitCh, toNat_digitChar k h, Bool.and_eq_true, decide_eq_true_eq]
  omega

theorem digitsVal_append (ds : List Char) (c : Char) :
    digitsVal (ds ++ [c]) = digitsVal ds * 10 + ((c.toNat : Int) - 48) := by
  simp [digitsVal, List.foldl_append]

theorem natCharsF_irrel (n : Nat) : ∀ f1 f2, n < f1 → n < f2 →
    natCharsF f1 n = natCharsF f2 n := by
  induction n using Nat.strong_induction_on with
  | _ n ih =>
    intro f1 f2 h1 h2
    match f1, f2 with
    | g1 + 1, g2 + 1 =>
      simp only [natCharsF]
      by_cases hn : n < 10
      · simp [hn]
      · simp only [hn, if_false]
        rw [ih (n / 10) (by omega) g1 g2 (by omega) (by omega)]

theorem natChars_eq (n : Nat) :
    natChars n = if n < 10 then [digitChar n]
      else natChars (n / 10) ++ [digitChar (n % 10)] := by
  by_cases hn : n < 10
  · simp [natChars, natCharsF, hn]
  · rw [if_neg hn]
    show natCharsF (n + 1) n = _
    rw [show natCharsF (n + 1) n = natCharsF n (n / 10) ++ [digitChar (n % 10)] from by
      simp only [natCharsF]; rw [if_neg hn]]
    rw [natCharsF_irrel (n / 10) n (n / 10 + 1) (by omega) (by omega)]
    rfl

theorem natChars_spec (n : Nat) :
    natChars n ≠ [] ∧ (∀ c ∈ natChars n, isDigitCh c = true) ∧
      digitsVal (natChars n) = (n : Int) ∧
      (∀ l, natChars n = '0' :: l → l = []) := by
  induction n using Nat.strong_induction_on with
  | _ n ih =>
    rw [natChars_eq n]
    by_cases hn : n < 10
    · simp only [hn, if_true]
      refine ⟨by simp, ?_, ?_, ?_⟩
      · intro c hc
        simp only [List.mem_singleton] at hc
        subst hc
        exact isDigitCh_digitChar n hn
      · simp only [digitsVal, List.foldl_cons, List.foldl_nil]
        rw [show ((digitChar n).toNat : Int) = 48 + n by exact_mod_cast congrArg Nat.cast (toNat_digitChar n hn)]
        omega
      · intro l hl
        exact (List.cons.injEq _ _ _ _ ▸ hl).2.symm
    · simp only [hn, if_false]
      obtain ⟨hne, hdig, hval, hzero⟩ := ih (n / 10) (by omega)
      refine ⟨by simp [hne], ?_, ?_, ?_⟩
      · intro c hc
        rcases List.mem_append.mp hc with h | h
        · exact hdig c h
        · simp only [List.mem_singleton] at h
          subst h
          exact isDigitCh_digitChar (n % 10) (by omega)
      · rw [digitsVal_append, hval]
        rw [show ((digitChar (n % 10)).toNat : Int) = 48 + (n % 10 : Nat) by
          exact_mod_cast congrArg Nat.cast (toNat_digitChar (n % 10) (by omega))]
        push_cast
        omega
      · intro l hl
        obtain ⟨c, t, hct⟩ : ∃ c t, natChars (n / 10) = c :: t := by
          cases hnc : natChars (n / 10) with
          | nil => exact absurd hnc hne
          | cons c t => exact ⟨c, t, rfl⟩
        rw [hct] at hl
        simp only [List.cons_append, List.cons.injEq] at hl
        obtain ⟨hc0, _⟩ := hl
        subst hc0
        have ht : t = [] := hzero t hct
        subst ht
        have : digitsVal (natChars (n / 10)) = (0 : Int) := by
          rw [hct]; rfl
        rw [hval] at this
        omega

theorem takeWhile_append_all (p : Char → Bool) :
    ∀ (l rest : List Char), (∀ c ∈ l, p c = true) →
      (∀ c, rest.head? = some c → p c = false) →
      (l ++ rest).takeWhile p = l ∧ (l ++ rest).dropWhile p = rest := by
  intro l
  induction l with
  | nil =>
    intro rest _ hr
    cases rest with
    | nil => exact ⟨rfl, rfl⟩
    | cons c t =>
      have := hr c rfl
      constructor
      · simp [List.takeWhile_cons, this]
      · simp [List.dropWhile_cons, this]
  | cons c l ih =>
    intro rest hl hr
    have hc : p c = true := hl c (by simp)
    obtain ⟨h1, h2⟩ := ih rest (fun x hx => hl x (by simp [hx])) hr
    constructor
    · simp [List.takeWhile_cons, hc, h1]
    · simp [List.dropWhile_cons, hc, h2]

theorem parseNumber_core (m : Nat) (rest : List Char)
    (hr : ∀ c, rest.head? = some c → isDigitCh c = false) :
    (fun l =>
        let ds := l.takeWhile isDigitCh
        match ds with
        | [] => none
        | '0' :: _ :: _ => none
        | _ => some (digitsVal ds, l.dropWhile isDigitCh))
      (natChars m ++ rest) = some ((m : Int), rest) := by
  obtain ⟨hne, hdig, hval, hzero⟩ := natChars_spec m
  obtain ⟨tw, dw⟩ := takeWhile_append_all isDigitCh (natChars m) rest hdig hr
  simp only [tw, dw]
  obtain ⟨c, t, hct⟩ : ∃ c t, natChars m = c :: t := by
    cases hnc : natChars m with
    | nil => exact absurd hnc hne
    | cons c t => exact ⟨c, t, rfl⟩
  rw [hct]
  cases t with
  | nil =>
    have hv1 : digitsVal [c] = (m : Int) := hct ▸ hval
    simp only [hv1]
  | cons t1 t2 =>
    have hc0 : c ≠ '0' := by
      intro h
      subst h
      have := hzero (t1 :: t2) hct
      simp at this
    split
    · rename_i heq
      simp at heq
    · rename_i heq
      simp only [List.cons.injEq] at heq
      exact absurd heq.1 hc0
    · rw [← hct, hval]

theorem parseNumber_intChars (n : Int) (rest : List Char)
    (hr : ∀ c, rest.head? = some c → isDigitCh c = false) :
    parseNumber (intChars n ++ rest) = some (jnum n, rest) := by
  have hcore := parseNumber_core n.natAbs rest hr
  simp only [] at hcore
  by_cases hneg : n < 0
  · have hic : intChars n ++ rest = '-' :: (natChars n.natAbs ++ rest) := by
      simp [intChars, if_pos hneg]
    rw [hic]
    simp only [parseNumber, hcore]
    have : -(n.natAbs : Int) = n := by omega
    rw [this]
  · have hic : intChars n ++ rest = natChars n.natAbs ++ rest := by
      simp [intChars, if_neg hneg]
    rw [hic]
    obtain ⟨c, t, hct⟩ : ∃ c t, natChars n.natAbs = c :: t := by
      cases hnc : natChars n.natAbs with
      | nil => exact absurd hnc (natChars_spec n.natAbs).1
      | cons c t => exact ⟨c, t, rfl⟩
    have hcd : isDigitCh c = true := (natChars_spec n.natAbs).2.1 c (by rw [hct]; simp)
    have hcm : c ≠ '-' := by
      intro h
      subst h
      exact absurd hcd (by decide)
    simp only [parseNumber]
    rw [hct]
    split
    · rename_i heq
      simp only [List.cons_append, List.cons.injEq] at heq
      exact absurd heq.1 hcm
    · rw [show (c :: t : List Char) ++ rest = natChars n.natAbs ++ rest from by rw [hct]]
      rw [hcore]
      have : (n.natAbs : Int) = n := by omega
      rw [this]

theorem parseStrCharsF_append :
    ∀ (l rest : List Char) (f : Nat), l.length + 1 ≤ f →
      (∀ c ∈ l, (32 ≤ c.toNat && c.toNat ≤ 126 && !(c = '"') && !(c = '\\')) = true) →
      parseStrCharsF f (l ++ '"' :: rest) = some (l, rest) := by
  intro l
  induction l with
  | nil =>
    intro rest f hf _
    match f, hf with
    | g + 1, _ => rfl
  | cons c l ih =>
    intro rest f hf hl
    match f, hf with
    | g + 1, hf =>
      have hc := hl c (by simp)
      simp only [Bool.and_eq_true, Bool.not_eq_true', decide_eq_false_iff_not,
        decide_eq_true_eq] at hc
      obtain ⟨⟨⟨h32, _⟩, hq⟩, hb⟩ := hc
      have hlt : ¬(c.toNat < 32) := by omega
      have hg : l.length + 1 ≤ g := by
        simp only [List.length_cons] at hf
        omega
      have hrec := ih rest g hg (fun x hx => hl x (by simp [hx]))
      simp only [List.cons_append, parseStrCharsF, if_neg hq, if_neg hb, if_neg hlt,
        List.append_eq, hrec]

theorem skipWs_not_ws (c : Char) (l : List Char) (h : isJsonWs c = false) :
    skipWs (c :: l) = c :: l := by
  simp [skipWs, h]

theorem skipWs_ws (c : Char) (l : List Char) (h : isJsonWs c = true) :
    skipWs (c :: l) = skipWs l := by
  simp [skipWs, h]

theorem parseValueF_ws (f : Nat) (c : Char) (l : List Char) (h : isJsonWs c = true) :
    parseValueF f (c :: l) = parseValueF f l := by
  cases f with
  | zero => rfl
  | succ g => simp only [parseValueF, skipWs_ws c l h]

theorem parseArrItems_ws (f : Nat) (c : Char) (l : List Char) (h : isJsonWs c = true) :
    parseArrItems f (c :: l) = parseArrItems f l := by
  cases f with
  | zero => rfl
  | succ g => simp only [parseArrItems, parseValueF_ws g c l h]

theorem parseObjItems_ws (f : Nat) (c : Char) (l : List Char) (h : isJsonWs c = true) :
    parseObjItems f (c :: l) = parseObjItems f l := by
  cases f with
  | zero => rfl
  | succ g => simp only [parseObjItems, skipWs_ws c l h]

theorem dictSet_append_fresh (acc : List (String × JValue)) (k : String) (v : JValue)
    (h : dictGet acc k = none) : dictSet acc k v = acc ++ [(k, v)] := by
  induction acc with
  | nil => rfl
  | cons p rest ih =>
    cases p with
    | mk k1 v1 =>
      simp only [dictGet] at h
      by_cases hk : k1 = k
      · rw [if_pos hk] at h
        exact absurd h (by simp)
      · rw [if_neg hk] at h
        simp only [dictSet, hk, if_false, List.cons_append, List.cons.injEq, true_and]
        exact ih h

theorem dictGet_append_none (acc kvs : List (String × JValue)) (k : String)
    (h1 : dictGet acc k = none) (h2 : dictGet kvs k = none) :
    dictGet (acc ++ kvs) k = none := by
  induction acc with
  | nil => exact h2
  | cons p rest ih =>
    cases p with
    | mk k1 v1 =>
      simp only [dictGet] at h1 ⊢
      by_cases hk : k1 = k
      · rw [if_pos hk] at h1
        exact absurd h1 (by simp)
      · rw [if_neg hk] at h1
        rw [if_neg hk]
        exact ih h1

theorem foldl_dictSet_go (kvs : List (String × JValue)) :
    ∀ acc, (∀ kv ∈ kvs, dictGet acc kv.1 = none) → (kvs.map Prod.fst).Nodup →
      kvs.foldl (fun acc kv => dictSet acc kv.1 kv.2) acc = acc ++ kvs := by
  induction kvs with
  | nil =>
    intro acc _ _
    simp
  | cons kv rest ih =>
    intro acc hfresh hnd
    cases kv with
    | mk k v =>
      simp only [List.map_cons, List.nodup_cons] at hnd
      simp only [List.foldl_cons]
      rw [dictSet_append_fresh acc k v (hfresh (k, v) (by simp))]
      rw [ih (acc ++ [(k, v)]) ?_ hnd.2]
      · simp
      · intro p hp
        apply dictGet_append_none
        · exact hfresh p (by simp [hp])
        · have hne : k ≠ p.1 := by
            intro he
            exact hnd.1 (he ▸ List.mem_map_of_mem Prod.fst hp)
          simp only [dictGet, if_neg hne]

theorem foldl_dictSet_nodup (kvs : List (String × JValue))
    (hnd : (kvs.map Prod.fst).Nodup) :
    kvs.foldl (fun acc kv => dictSet acc kv.1 kv.2) [] = kvs := by
  rw [foldl_dictSet_go kvs [] (fun _ _ => rfl) hnd]
  rfl

theorem intercalate_singleton (sep : List Char) (x : List Char) :
    List.intercalate sep [x] = x := by
  simp [List.intercalate, List.intersperse]

theorem intercalate_cons_cons (sep x y : List Char) (l : List (List Char)) :
    List.intercalate sep (x :: y :: l) = x ++ sep ++ List.intercalate sep (y :: l) := by
  simp [List.intercalate, List.intersperse]


theorem parseArrItems_cons_eq (f : Nat) (cs : List Char) (v : JValue) (r : List Char)
    (h : parseValueF f cs = some (v, r)) :
    parseArrItems (f + 1) cs =
      match skipWs r with
      | ',' :: r2 =>
        (match parseArrItems f r2 with
         | some (vs, r3) => some (v :: vs, r3)
         | none => none)
      | ']' :: r2 => some ([v], r2)
      | _ => none := by
  simp only [parseArrItems, h]

theorem parseArrItems_step_last (f : Nat) (cs : List Char) (v : JValue) (r : List Char)
    (h : parseValueF f cs = some (v, ']' :: r)) :
    parseArrItems (f + 1) cs = some ([v], r) := by
  rw [parseArrItems_cons_eq f cs v _ h]
  rfl

theorem parseArrItems_step_comma (f : Nat) (cs : List Char) (v : JValue) (r2 : List Char)
    (h : parseValueF f cs = some (v, ',' :: r2)) :
    parseArrItems (f + 1) cs =
      match parseArrItems f r2 with
      | some (vs, r3) => some (v :: vs, r3)
      | none => none := by
  rw [parseArrItems_cons_eq f cs v _ h]
  rfl

theorem parseObjItems_cons_eq (f : Nat) (T kd B : List Char)
    (hstr : parseStrCharsF f T = some (kd, ':' :: B)) :
    parseObjItems (f + 1) ('"' :: T) =
      match parseValueF f B with
      | some (v, r3) =>
        (match skipWs r3 with
         | ',' :: r4 =>
           (match parseObjItems f r4 with
            | some (kvs, r5) => some ((String.mk kd, v) :: kvs, r5)
            | none => none)
         | c2 :: r4 => if c2 = rbrace then some ([(String.mk kd, v)], r4) else none
         | [] => none)
      | none => none := by
  have h0 : parseObjItems (f + 1) ('"' :: T) =
      match parseStrCharsF f T with
      | some (k, r1) =>
        (match skipWs r1 with
         | ':' :: r2 =>
           (match parseValueF f r2 with
            | some (v, r3) =>
              (match skipWs r3 with
               | ',' :: r4 =>
                 (match parseObjItems f r4 with
                  | some (kvs, r5) => some ((String.mk k, v) :: kvs, r5)
                  | none => none)
               | c2 :: r4 => if c2 = rbrace then some ([(String.mk k, v)], r4) else none
               | [] => none)
            | none => none)
         | _ => none)
      | none => none := rfl
  rw [h0, hstr]
  rfl

theorem parseObjItems_step_comma (f : Nat) (T kd B : List Char) (v : JValue) (r4 : List Char)
    (hstr : parseStrCharsF f T = some (kd, ':' :: B))
    (hval : parseValueF f B = some (v, ',' :: r4)) :
    parseObjItems (f + 1) ('"' :: T) =
      match parseObjItems f r4 with
      | some (kvs, r5) => some ((String.mk kd, v) :: kvs, r5)
      | none => none := by
  rw [parseObjItems_cons_eq f T kd B hstr, hval]
  rfl

theorem parseObjItems_step_last (f : Nat) (T kd B : List Char) (v : JValue) (r4 : List Char)
    (hstr : parseStrCharsF f T = some (kd, ':' :: B))
    (hval : parseValueF f B = some (v, rbrace :: r4)) :
    parseObjItems (f + 1) ('"' :: T) = some ([(String.mk kd, v)], r4) := by
  rw [parseObjItems_cons_eq f T kd B hstr, hval]
  rfl

theorem parseArrStart_nonempty (f : Nat) (c : Char) (T : List Char)
    (hws : isJsonWs c = false) (hne : ¬(c = ']')) :
    parseArrStart (f + 1) (c :: T) =
      match parseArrItems f (c :: T) with
      | some (vs, r) => some (jarr vs, r)
      | none => none := by
  simp only [parseArrStart, skipWs_not_ws c T hws]
  split
  · rename_i heq
    injection heq with h1 h2
    exact absurd h1 hne
  · rfl

theorem parseObjStart_quote (f : Nat) (T : List Char) :
    parseObjStart (f + 1) ('"' :: T) =
      match parseObjItems f ('"' :: T) with
      | some (kvs, r2) =>
        some (jobj (kvs.foldl (fun acc kv => dictSet acc kv.1 kv.2) []), r2)
      | none => none := rfl


theorem digit_props (c : Char) (h : isDigitCh c = true) :
    isJsonWs c = false ∧ ¬(c = '"') ∧ ¬(c = lbrace) ∧ ¬(c = '[') ∧ ¬(c = 't') ∧
      ¬(c = 'f') ∧ ¬(c = 'n') ∧ ¬(c = ']') := by
  refine ⟨?_, ?_, ?_, ?_, ?_, ?_, ?_, ?_⟩
  · simp only [isJsonWs, Bool.or_eq_false_iff]
    refine ⟨⟨⟨?_, ?_⟩, ?_⟩, ?_⟩ <;>
      · simp only [decide_eq_false_iff_not]
        intro he
        subst he
        exact absurd h (by decide)
  all_goals
    intro he
    subst he
    exact absurd h (by decide)

theorem dumpHead_spec (d : Nat) (v : JValue) (hwf : wfJ d v = true) :
    ∃ c t, jdumpF d v = c :: t ∧ isJsonWs c = false ∧ ¬(c = ']') := by
  cases d with
  | zero => simp [wfJ] at hwf
  | succ d =>
    cases v with
    | jnull => exact ⟨'n', _, rfl, by decide, by decide⟩
    | jbool b =>
      cases b with
      | true => exact ⟨'t', _, rfl, by decide, by decide⟩
      | false => exact ⟨'f', _, rfl, by decide, by decide⟩
    | jstr s => exact ⟨'"', _, rfl, by decide, by decide⟩
    | jarr xs => exact ⟨'[', _, rfl, by decide, by decide⟩
    | jobj kvs => exact ⟨lbrace, _, rfl, by decide, by decide⟩
    | jnum n =>
      by_cases hn : n < 0
      · refine ⟨'-', natChars n.natAbs, ?_, by decide, by decide⟩
        simp only [jdumpF, intChars, if_pos hn]
      · obtain ⟨c, t, hct⟩ : ∃ c t, natChars n.natAbs = c :: t := by
          cases hnc : natChars n.natAbs with
          | nil => exact absurd hnc (natChars_spec n.natAbs).1
          | cons c t => exact ⟨c, t, rfl⟩
        have hcd : isDigitCh c = true := (natChars_spec n.natAbs).2.1 c (by rw [hct]; simp)
        obtain ⟨hws, _, _, _, _, _, _, hrb⟩ := digit_props c hcd
        refine ⟨c, t, ?_, hws, hrb⟩
        simp only [jdumpF, intChars, if_neg hn]
        exact hct

theorem parse_jdump_all : ∀ f : Nat,
    (∀ (d : Nat) (v : JValue) (rest : List Char), wfJ d v = true →
      3 * (jdumpF d v).length + 1 ≤ f → headNotDigit rest = true →
      parseValueF f (jdumpF d v ++ rest) = some (v, rest)) ∧
    (∀ (d : Nat) (vs : List JValue) (rest : List Char), vs ≠ [] →
      (∀ v ∈ vs, wfJ d v = true) →
      3 * (List.intercalate (", ".data) (vs.map (jdumpF d))).length + 2 ≤ f →
      parseArrItems f (List.intercalate (", ".data) (vs.map (jdumpF d)) ++ ']' :: rest)
        = some (vs, rest)) ∧
    (∀ (d : Nat) (kvs : List (String × JValue)) (rest : List Char), kvs ≠ [] →
      (∀ kv ∈ kvs, (wfStr kv.1 && wfJ d kv.2) = true) →
      3 * (List.intercalate (", ".data)
        (kvs.map fun kv => '"' :: kv.1.data ++ ['"'] ++ ": ".data ++ jdumpF d kv.2)).length + 2 ≤ f →
      parseObjItems f (List.intercalate (", ".data)
        (kvs.map fun kv => '"' :: kv.1.data ++ ['"'] ++ ": ".data ++ jdumpF d kv.2)
          ++ rbrace :: rest) = some (kvs, rest)) := by
  intro f
  induction f using Nat.strong_induction_on with
  | _ f ih =>
    refine ⟨?_, ?_, ?_⟩
    · -- parseValueF on one dumped value
      intro d v rest hwf hfuel hrest
      cases d with
      | zero => simp [wfJ] at hwf
      | succ d =>
        obtain ⟨g, rfl⟩ : ∃ g, f = g + 1 := ⟨f - 1, by omega⟩
        cases v with
        | jnull => rfl
        | jbool b => cases b <;> rfl
        | jnum n =>
          by_cases hn : n < 0
          · have hic : jdumpF (d + 1) (jnum n) = '-' :: natChars n.natAbs := by
              simp only [jdumpF, intChars, if_pos hn]
            rw [hic]
            rw [List.cons_append]
            have hred : parseValueF (g + 1) ('-' :: (natChars n.natAbs ++ rest))
                = parseNumber ('-' :: (natChars n.natAbs ++ rest)) := rfl
            rw [hred]
            rw [show ('-' :: (natChars n.natAbs ++ rest)) = intChars n ++ rest from by
              simp [intChars, if_pos hn]]
            exact parseNumber_intChars n rest (fun c hc => by
              cases rest with
              | nil => simp at hc
              | cons r0 rt =>
                simp only [List.head?] at hc
                cases hc
                simpa [headNotDigit] using hrest)
          · have hic : jdumpF (d + 1) (jnum n) = natChars n.natAbs := by
              simp only [jdumpF, intChars, if_neg hn]
            rw [hic]
            obtain ⟨c, t, hct⟩ : ∃ c t, natChars n.natAbs = c :: t := by
              cases hnc : natChars n.natAbs with
              | nil => exact absurd hnc (natChars_spec n.natAbs).1
              | cons c t => exact ⟨c, t, rfl⟩
            have hcd : isDigitCh c = true := (natChars_spec n.natAbs).2.1 c (by rw [hct]; simp)
            obtain ⟨hws, hq, hlb, hlbk, ht, hf2, hn2, _⟩ := digit_props c hcd
            rw [hct, List.cons_append]
            simp only [parseValueF, skipWs_not_ws c (t ++ rest) hws]
            have hmin : ¬(c = '-') := by
              intro he
              subst he
              exact absurd hcd (by decide)
            simp only [if_neg hq, if_neg hlb, if_neg hlbk, if_neg ht, if_neg hf2,
              if_neg hn2, hcd, Bool.or_true, if_true]
            rw [show c :: (t ++ rest) = intChars n ++ rest from by
              simp [intChars, if_neg hn, hct]]
            exact parseNumber_intChars n rest (fun c2 hc2 => by
              cases rest with
              | nil => simp at hc2
              | cons r0 rt =>
                simp only [List.head?] at hc2
                cases hc2
                simpa [headNotDigit] using hrest)
        | jstr s =>
          have hwfs : wfStr s = true := by simpa [wfJ] using hwf
          have hlen : (jdumpF (d + 1) (jstr s)).length = s.data.length + 2 := by
            simp [jdumpF]
          rw [hlen] at hfuel
          have hg : s.data.length + 1 ≤ g := by omega
          have harr : jdumpF (d + 1) (jstr s) ++ rest = '"' :: (s.data ++ '"' :: rest) := by
            simp [jdumpF]
          rw [harr]
          have hred : parseValueF (g + 1) ('"' :: (s.data ++ '"' :: rest)) =
              match parseStrCharsF g (s.data ++ '"' :: rest) with
              | some (s2, r) => some (jstr (String.mk s2), r)
              | none => none := rfl
          rw [hred]
          have hchars : ∀ c ∈ s.data,
              (32 ≤ c.toNat && c.toNat ≤ 126 && !(c = '"') && !(c = '\\')) = true := by
            have hall := hwfs
            simp only [wfStr, List.all_eq_true, Bool.and_eq_true, decide_eq_true_eq] at hall
            intro c hc
            obtain ⟨⟨⟨h1, h2⟩, h3⟩, h4⟩ := hall c hc
            simp only [Bool.and_eq_true, Bool.not_eq_true', decide_eq_false_iff_not,
              decide_eq_true_eq]
            exact ⟨⟨⟨h1, h2⟩, h3⟩, h4⟩
          rw [parseStrCharsF_append s.data rest g hg hchars]
        | jarr xs =>
          have hwfx : ∀ v ∈ xs, wfJ d v = true := by
            simpa [wfJ, List.all_eq_true] using hwf
          cases xs with
          | nil =>
            have hg1 : 1 ≤ g := by
              have h2 : (jdumpF (d + 1) (jarr ([] : List JValue))).length = 2 := rfl
              rw [h2] at hfuel
              omega
            obtain ⟨g1, rfl⟩ : ∃ g1, g = g1 + 1 := ⟨g - 1, by omega⟩
            rfl
          | cons v1 xs2 =>
            have hd2 : jdumpF (d + 1) (jarr (v1 :: xs2)) ++ rest =
                '[' :: (List.intercalate (", ".data) ((v1 :: xs2).map (jdumpF d))
                  ++ ']' :: rest) := by
              simp [jdumpF, List.append_assoc]
            rw [hd2]
            have hred : parseValueF (g + 1)
                ('[' :: (List.intercalate (", ".data) ((v1 :: xs2).map (jdumpF d))
                  ++ ']' :: rest)) =
                parseArrStart g (List.intercalate (", ".data) ((v1 :: xs2).map (jdumpF d))
                  ++ ']' :: rest) := rfl
            rw [hred]
            obtain ⟨c, t, hct, hcws, hcrb⟩ := dumpHead_spec d v1 (hwfx v1 (by simp))
            obtain ⟨t2, hIc⟩ : ∃ t2,
                List.intercalate (", ".data) ((v1 :: xs2).map (jdumpF d)) = c :: t2 := by
              cases xs2 with
              | nil => exact ⟨t, by simp [intercalate_singleton, hct]⟩
              | cons v2 xs3 =>
                refine ⟨t ++ (", ".data ++
                  List.intercalate (", ".data) ((v2 :: xs3).map (jdumpF d))), ?_⟩
                rw [List.map_cons, List.map_cons, intercalate_cons_cons, hct]
                simp [List.append_assoc]
            have hlenA : (jdumpF (d + 1) (jarr (v1 :: xs2))).length =
                (List.intercalate (", ".data) ((v1 :: xs2).map (jdumpF d))).length + 2 := by
              simp [jdumpF]
            rw [hlenA] at hfuel
            have hg1 : 1 ≤ g := by omega
            obtain ⟨g1, rfl⟩ : ∃ g1, g = g1 + 1 := ⟨g - 1, by omega⟩
            rw [hIc, List.cons_append, parseArrStart_nonempty g1 c (t2 ++ ']' :: rest) hcws hcrb]
            rw [← List.cons_append, ← hIc]
            rw [(ih (g1) (by omega)).2.1 d (v1 :: xs2) rest (by simp) hwfx (by omega)]
        | jobj kvs =>
          have hwfk : ∀ kv ∈ kvs, (wfStr kv.1 && wfJ d kv.2) = true := by
            have h2 := hwf
            simp only [wfJ, Bool.and_eq_true, List.all_eq_true] at h2
            intro kv hkv
            simp only [Bool.and_eq_true]
            exact h2.1 kv hkv
          have hnd : (kvs.map Prod.fst).Nodup := by
            have h2 := hwf
            simp only [wfJ, Bool.and_eq_true, List.all_eq_true, decide_eq_true_eq] at h2
            exact h2.2
          cases kvs with
          | nil =>
            have hg1 : 1 ≤ g := by
              have h2 : (jdumpF (d + 1) (jobj ([] : List (String × JValue)))).length = 2 := rfl
              rw [h2] at hfuel
              omega
            obtain ⟨g1, rfl⟩ : ∃ g1, g = g1 + 1 := ⟨g - 1, by omega⟩
            rfl
          | cons kv kvs2 =>
            have hd2 : jdumpF (d + 1) (jobj (kv :: kvs2)) ++ rest =
                lbrace :: (List.intercalate (", ".data) ((kv :: kvs2).map fun kv =>
                    '"' :: kv.1.data ++ ['"'] ++ ": ".data ++ jdumpF d kv.2)
                  ++ rbrace :: rest) := by
              simp [jdumpF, List.append_assoc]
            rw [hd2]
            have hred : parseValueF (g + 1)
                (lbrace :: (List.intercalate (", ".data) ((kv :: kvs2).map fun kv =>
                    '"' :: kv.1.data ++ ['"'] ++ ": ".data ++ jdumpF d kv.2)
                  ++ rbrace :: rest)) =
                parseObjStart g (List.intercalate (", ".data) ((kv :: kvs2).map fun kv =>
                    '"' :: kv.1.data ++ ['"'] ++ ": ".data ++ jdumpF d kv.2)
                  ++ rbrace :: rest) := rfl
            rw [hred]
            obtain ⟨T, hIT⟩ : ∃ T,
                List.intercalate (", ".data) ((kv :: kvs2).map fun kv =>
                  '"' :: kv.1.data ++ ['"'] ++ ": ".data ++ jdumpF d kv.2) = '"' :: T := by
              cases kvs2 with
              | nil =>
                refine ⟨kv.1.data ++ ['"'] ++ ": ".data ++ jdumpF d kv.2, ?_⟩
                rw [List.map_cons, List.map_nil, intercalate_singleton]
                simp [List.cons_append, List.append_assoc]
              | cons kv2 kvs3 =>
                refine ⟨(kv.1.data ++ ['"'] ++ ": ".data ++ jdumpF d kv.2) ++ (", ".data ++
                  List.intercalate (", ".data) ((kv2 :: kvs3).map fun kv =>
                    '"' :: kv.1.data ++ ['"'] ++ ": ".data ++ jdumpF d kv.2)), ?_⟩
                rw [List.map_cons, List.map_cons, intercalate_cons_cons]
                simp [List.cons_append, List.append_assoc]
            have hlenO : (jdumpF (d + 1) (jobj (kv :: kvs2))).length =
                (List.intercalate (", ".data) ((kv :: kvs2).map fun kv =>
                  '"' :: kv.1.data ++ ['"'] ++ ": ".data ++ jdumpF d kv.2)).length + 2 := by
              simp [jdumpF]
            rw [hlenO] at hfuel
            have hg1 : 1 ≤ g := by omega
            obtain ⟨g1, rfl⟩ : ∃ g1, g = g1 + 1 := ⟨g - 1, by omega⟩
            rw [hIT, List.cons_append, parseObjStart_quote g1
              (T ++ rbrace :: rest)]
            rw [← List.cons_append, ← hIT]
            rw [(ih (g1) (by omega)).2.2 d (kv :: kvs2) rest (by simp) hwfk (by omega)]
            simp only [foldl_dictSet_nodup (kv :: kvs2) hnd]
    · -- parseArrItems on a dumped item list
      intro d vs rest hne hwfs hfuel
      cases vs with
      | nil => exact absurd rfl hne
      | cons v1 vs2 =>
        have hf2 : 2 ≤ f := le_trans (by omega) hfuel
        obtain ⟨f1, rfl⟩ : ∃ f1, f = f1 + 1 := ⟨f - 1, by omega⟩
        cases vs2 with
        | nil =>
          rw [List.map_cons, List.map_nil, intercalate_singleton] at hfuel ⊢
          have h1 := (ih f1 (by omega)).1 d v1 (']' :: rest) (hwfs v1 (by simp))
            (by omega) rfl
          rw [parseArrItems_step_last f1 _ v1 rest h1]
        | cons v2 vs3 =>
          rw [List.map_cons, List.map_cons, intercalate_cons_cons] at hfuel ⊢
          have hlen2 : ((jdumpF d v1 ++ ", ".data ++
              List.intercalate (", ".data) (jdumpF d v2 :: List.map (jdumpF d) vs3))
                : List Char).length
              = (jdumpF d v1).length + 2 +
                (List.intercalate (", ".data)
                  (jdumpF d v2 :: List.map (jdumpF d) vs3)).length := by
            simp [List.length_append]
            omega
          rw [hlen2] at hfuel
          rw [show (jdumpF d v1 ++ ", ".data ++
              List.intercalate (", ".data) (jdumpF d v2 :: List.map (jdumpF d) vs3))
                ++ ']' :: rest
              = jdumpF d v1 ++ (',' :: ' ' ::
                (List.intercalate (", ".data) (jdumpF d v2 :: List.map (jdumpF d) vs3)
                  ++ ']' :: rest)) from by
            simp only [List.append_assoc]
            rfl]
          have h1 := (ih f1 (by omega)).1 d v1 (',' :: ' ' ::
              (List.intercalate (", ".data) (jdumpF d v2 :: List.map (jdumpF d) vs3)
                ++ ']' :: rest)) (hwfs v1 (by simp)) (by omega) rfl
          rw [parseArrItems_step_comma f1 _ v1 _ h1]
          have h2 := (ih f1 (by omega)).2.1 d (v2 :: vs3) rest (by simp)
            (fun v hv => hwfs v (by simp [List.mem_cons] at hv ⊢; tauto)) (by
              rw [List.map_cons]
              omega)
          have h2w : parseArrItems f1 (' ' ::
              (List.intercalate (", ".data) (jdumpF d v2 :: List.map (jdumpF d) vs3)
                ++ ']' :: rest)) = some (v2 :: vs3, rest) := by
            rw [parseArrItems_ws f1 ' ' _ (by decide)]
            rw [show List.intercalate (", ".data) (jdumpF d v2 :: List.map (jdumpF d) vs3)
              = List.intercalate (", ".data) ((v2 :: vs3).map (jdumpF d)) from by
              rw [List.map_cons]]
            exact h2
          rw [h2w]
    · -- parseObjItems on a dumped key-value list
      intro d kvs rest hne hwfs hfuel
      cases kvs with
      | nil => exact absurd rfl hne
      | cons kv kvs2 =>
        obtain ⟨k, v⟩ := kv
        have hf2 : 2 ≤ f := le_trans (by omega) hfuel
        obtain ⟨f1, rfl⟩ : ∃ f1, f = f1 + 1 := ⟨f - 1, by omega⟩
        have hwk : wfStr k = true ∧ wfJ d v = true := by
          have h2 := hwfs (k, v) (by simp)
          simpa [Bool.and_eq_true] using h2
        have hchars : ∀ c ∈ k.data,
            (32 ≤ c.toNat && c.toNat ≤ 126 && !(c = '"') && !(c = '\\')) = true := by
          have hall := hwk.1
          simp only [wfStr, List.all_eq_true, Bool.and_eq_true, decide_eq_true_eq] at hall
          intro c hc
          obtain ⟨⟨⟨h1, h2⟩, h3⟩, h4⟩ := hall c hc
          simp only [Bool.and_eq_true, Bool.not_eq_true', decide_eq_false_iff_not,
            decide_eq_true_eq]
          exact ⟨⟨⟨h1, h2⟩, h3⟩, h4⟩
        cases kvs2 with
        | nil =>
          rw [List.map_cons, List.map_nil, intercalate_singleton] at hfuel ⊢
          have hlenI : (('"' :: (k, v).1.data ++ ['"'] ++ ": ".data
              ++ jdumpF d (k, v).2) : List Char).length
              = k.data.length + (jdumpF d v).length + 4 := by
            simp [List.length_append]
            omega
          rw [hlenI] at hfuel
          rw [show (('"' :: (k, v).1.data ++ ['"'] ++ ": ".data ++ jdumpF d (k, v).2)
                : List Char) ++ rbrace :: rest
              = '"' :: (k.data ++ '"' :: (':' :: ' ' :: (jdumpF d v ++ rbrace :: rest)))
              from by
            simp only [List.cons_append, List.append_assoc]
            rfl]
          have hstr := parseStrCharsF_append k.data
            (':' :: ' ' :: (jdumpF d v ++ rbrace :: rest)) f1 (by omega) hchars
          have hval : parseValueF f1 (' ' :: (jdumpF d v ++ rbrace :: rest))
              = some (v, rbrace :: rest) := by
            rw [parseValueF_ws f1 ' ' _ (by decide)]
            exact (ih f1 (by omega)).1 d v (rbrace :: rest) hwk.2 (by omega) rfl
          rw [parseObjItems_step_last f1 _ k.data _ v rest hstr hval]
        | cons kv2 kvs3 =>
          rw [List.map_cons, List.map_cons, intercalate_cons_cons] at hfuel ⊢
          simp only [] at hfuel ⊢
          have hlen3 : (('"' :: k.data ++ ['"'] ++ [':', ' '] ++ jdumpF d v ++ [',', ' '] ++
              List.intercalate [',', ' ']
                (('"' :: kv2.1.data ++ ['"'] ++ [':', ' '] ++ jdumpF d kv2.2) ::
                  List.map (fun kv => '"' :: kv.1.data ++ ['"'] ++ [':', ' '] ++ jdumpF d kv.2)
                    kvs3)) : List Char).length
              = k.data.length + (jdumpF d v).length + 6 +
                ((List.intercalate [',', ' ']
                (('"' :: kv2.1.data ++ ['"'] ++ [':', ' '] ++ jdumpF d kv2.2) ::
                  List.map (fun kv => '"' :: kv.1.data ++ ['"'] ++ [':', ' '] ++ jdumpF d kv.2)
                    kvs3)) : List Char).length := by
            simp [List.length_append]
            omega
          rw [hlen3] at hfuel
          rw [show (('"' :: k.data ++ ['"'] ++ [':', ' '] ++ jdumpF d v ++ [',', ' '] ++
                List.intercalate [',', ' ']
                (('"' :: kv2.1.data ++ ['"'] ++ [':', ' '] ++ jdumpF d kv2.2) ::
                  List.map (fun kv => '"' :: kv.1.data ++ ['"'] ++ [':', ' '] ++ jdumpF d kv.2)
                    kvs3)) : List Char) ++ rbrace :: rest
              = '"' :: (k.data ++ '"' :: (':' :: ' ' :: (jdumpF d v ++ ',' :: ' ' ::
                  ((List.intercalate [',', ' ']
                (('"' :: kv2.1.data ++ ['"'] ++ [':', ' '] ++ jdumpF d kv2.2) ::
                  List.map (fun kv => '"' :: kv.1.data ++ ['"'] ++ [':', ' '] ++ jdumpF d kv.2)
                    kvs3)) ++ rbrace :: rest)))) from by
            simp only [List.cons_append, List.append_assoc]
            rfl]
          have hstr := parseStrCharsF_append k.data
            (':' :: ' ' :: (jdumpF d v ++ ',' :: ' ' :: ((List.intercalate [',', ' ']
                (('"' :: kv2.1.data ++ ['"'] ++ [':', ' '] ++ jdumpF d kv2.2) ::
                  List.map (fun kv => '"' :: kv.1.data ++ ['"'] ++ [':', ' '] ++ jdumpF d kv.2)
                    kvs3)) ++ rbrace :: rest)))
            f1 (by omega) hchars
          have hval : parseValueF f1
              (' ' :: (jdumpF d v ++ ',' :: ' ' :: ((List.intercalate [',', ' ']
                (('"' :: kv2.1.data ++ ['"'] ++ [':', ' '] ++ jdumpF d kv2.2) ::
                  List.map (fun kv => '"' :: kv.1.data ++ ['"'] ++ [':', ' '] ++ jdumpF d kv.2)
                    kvs3)) ++ rbrace :: rest)))
              = some (v, ',' :: ' ' :: ((List.intercalate [',', ' ']
                (('"' :: kv2.1.data ++ ['"'] ++ [':', ' '] ++ jdumpF d kv2.2) ::
                  List.map (fun kv => '"' :: kv.1.data ++ ['"'] ++ [':', ' '] ++ jdumpF d kv.2)
                    kvs3)) ++ rbrace :: rest)) := by
            rw [parseValueF_ws f1 ' ' _ (by decide)]
            exact (ih f1 (by omega)).1 d v _ hwk.2 (by omega) rfl
          rw [parseObjItems_step_comma f1 _ k.data _ v _ hstr hval]
          have h2 := (ih f1 (by omega)).2.2 d (kv2 :: kvs3) rest (by simp)
            (fun p hp => hwfs p (by simp [List.mem_cons] at hp ⊢; tauto))
            (by rw [List.map_cons]; simp only []; omega)
          rw [List.map_cons] at h2
          simp only [] at h2
          have h2w : parseObjItems f1 (' ' :: ((List.intercalate [',', ' ']
                (('"' :: kv2.1.data ++ ['"'] ++ [':', ' '] ++ jdumpF d kv2.2) ::
                  List.map (fun kv => '"' :: kv.1.data ++ ['"'] ++ [':', ' '] ++ jdumpF d kv.2)
                    kvs3)) ++ rbrace :: rest))
              = some (kv2 :: kvs3, rest) := by
            rw [parseObjItems_ws f1 ' ' _ (by decide)]
            exact h2
          rw [h2w]

theorem jparse_jdump (d : Nat) (v : JValue) (h : wfJ d v = true) :
    jparse (String.mk (jdumpF d v)) = some v := by
  have hmain := (parse_jdump_all (3 * (String.mk (jdumpF d v)).length + 3)).1 d v [] h
    (by
      have he : (String.mk (jdumpF d v)).length = (jdumpF d v).length := rfl
      omega)
    rfl
  rw [List.append_nil] at hmain
  simp only [jparse]
  rw [hmain]
  rfl

theorem pyStrip_brace (l : List Char) :
    pyStrip (String.mk (lbrace :: (l ++ [rbrace]))) = String.mk (lbrace :: (l ++ [rbrace])) := by
  unfold pyStrip
  have h1 : (lbrace :: (l ++ [rbrace])).dropWhile isPyWs = lbrace :: (l ++ [rbrace]) := by
    rw [List.dropWhile_cons]
    simp [show isPyWs lbrace = false from by decide]
  have h2 : (lbrace :: (l ++ [rbrace])).reverse = rbrace :: (l.reverse ++ [lbrace]) := by
    simp
  have h3 : (rbrace :: (l.reverse ++ [lbrace])).dropWhile isPyWs
      = rbrace :: (l.reverse ++ [lbrace]) := by
    rw [List.dropWhile_cons]
    simp [show isPyWs rbrace = false from by decide]
  rw [show (String.mk (lbrace :: (l ++ [rbrace]))).data = lbrace :: (l ++ [rbrace]) from rfl]
  rw [h1, h2, h3, ← h2, List.reverse_reverse]

theorem pyStrip_jobj_dump (fd : Nat) (kvs : List (String × JValue)) :
    pyStrip (String.mk (jdumpF (fd + 1) (jobj kvs)))
      = String.mk (jdumpF (fd + 1) (jobj kvs)) := by
  have hshape : jdumpF (fd + 1) (jobj kvs) =
      lbrace :: (List.intercalate (", ".data) (kvs.map fun kv =>
        '"' :: kv.1.data ++ ['"'] ++ ": ".data ++ jdumpF fd kv.2) ++ [rbrace]) := rfl
  rw [hshape]
  exact pyStrip_brace _

theorem runCue_noop (start D : Int) (cd : List (String × JValue)) (t dur : Int)
    (ht : dictGet cd "timestamp" = some (jnum t))
    (hd : dictGet cd "duration" = some (jnum dur))
    (h1 : start ≤ t) (h2 : t < start + D) (h3 : dur ≤ start + D - t) :
    runCue start D cd = .ok cd := by
  have e1 : pyGetD cd "timestamp" (jnum 0) = jnum t := by simp [pyGetD, ht]
  have e2 : pyGetD cd "duration" (jnum 3) = jnum dur := by simp [pyGetD, hd]
  have hk : hasKey cd "timestamp" = true := by simp [hasKey, ht]
  simp only [runCue, e1, e2, asIntPy]
  rw [if_neg (by omega), if_neg (by omega), if_pos hk]
  simp only [clampCueDuration, asIntPy]
  rw [if_neg (by omega)]

theorem runCues_noop (start D : Int) :
    ∀ cs : List JValue, (∀ c ∈ cs, cueNoOp start D c = true) →
      runCues start D cs = .ok cs := by
  intro cs
  induction cs with
  | nil => intro _; rfl
  | cons c rest ih =>
    intro hall
    have hc := hall c (by simp)
    cases c with
    | jobj cd =>
      unfold cueNoOp at hc
      cases ht : dictGet cd "timestamp" with
      | none => simp [ht] at hc
      | some tv =>
        simp only [ht] at hc
        cases tv with
        | jnum t =>
          cases hd : dictGet cd "duration" with
          | none => simp [hd] at hc
          | some dv =>
            simp only [hd] at hc
            cases dv with
            | jnum dur =>
              simp only [Bool.and_eq_true, decide_eq_true_eq] at hc
              obtain ⟨⟨hh1, hh2⟩, hh3⟩ := hc
              have hcue := runCue_noop start D cd t dur ht hd hh1 hh2 hh3
              have hrest := ih (fun x hx => hall x (by simp [hx]))
              simp only [runCues, hcue, hrest]
            | jnull => simp at hc
            | jbool b => simp at hc
            | jstr s => simp at hc
            | jarr xs => simp at hc
            | jobj o => simp at hc
        | jnull => simp at hc
        | jbool b => simp at hc
        | jstr s => simp at hc
        | jarr xs => simp at hc
        | jobj o => simp at hc
    | jnull => simp [cueNoOp] at hc
    | jbool b => simp [cueNoOp] at hc
    | jnum n => simp [cueNoOp] at hc
    | jstr s => simp [cueNoOp] at hc
    | jarr xs => simp [cueNoOp] at hc

theorem runSection_noop (d : List (String × JValue)) (name : String) (start : Int)
    (h : sectionNoOp name d start = true) :
    runSection d name start = .ok (d, start + effDurOf d name) := by
  unfold sectionNoOp at h
  cases hsec : dictGet d name with
  | none => simp [hsec] at h
  | some sv =>
    simp only [hsec] at h
    cases sv with
    | jobj sec =>
      cases hn : dictGet sec "duration_seconds" with
      | none => simp [hn] at h
      | some nv =>
        simp only [hn] at h
        cases nv with
        | jnum n =>
          cases hcs : dictGet sec "visual_cues" with
          | none => simp [hcs] at h
          | some cv =>
            simp only [hcs] at h
            cases cv with
            | jarr cs =>
              simp only [Bool.and_eq_true, decide_eq_true_eq, List.all_eq_true] at h
              obtain ⟨hpos, hcues⟩ := h
              have e1 : pyGetD d name (jobj []) = jobj sec := by simp [pyGetD, hsec]
              have e2 : pyGetD sec "duration_seconds" (jnum 0) = jnum n := by
                simp [pyGetD, hn]
              have e3 : pyGetD sec "visual_cues" (jarr []) = jarr cs := by
                simp [pyGetD, hcs]
              have hk : hasKey d name = true := by simp [hasKey, hsec]
              have hk2 : hasKey sec "visual_cues" = true := by simp [hasKey, hcs]
              have hn0 : ¬(n ≤ 0) := by omega
              have hrun : runCues start n cs = .ok cs :=
                runCues_noop start n cs (fun c hcmem => hcues c hcmem)
              have heff : effDurOf d name = n := by
                simp only [effDurOf, hsec, hn, effDur]
                rw [if_neg hn0]
              rw [heff]
              simp only [runSection, e1, e2, asIntPy]
              rw [if_neg hn0, if_neg hn0]
              simp only [e3, hrun, hk, if_true, hk2]
              rw [dictSet_same sec "visual_cues" (jarr cs) hcs]
              rw [dictSet_same d name (jobj sec) hsec]
            | jnull => simp at h
            | jbool b => simp at h
            | jnum m => simp at h
            | jstr s => simp at h
            | jobj o => simp at h
        | jnull => simp at h
        | jbool b => simp at h
        | jstr s => simp at h
        | jarr xs => simp at h
        | jobj o => simp at h
    | jnull => simp at h
    | jbool b => simp at h
    | jnum m => simp at h
    | jstr s => simp at h
    | jarr xs => simp at h

set_option maxRecDepth 8000 in
/-- C9 (counterexample): the round trip is not text-for-text identity.  The
serialized artifact `{"a": 1}` has no `visual_timeline` key, but normalizing
its own `json.dumps` output returns an artifact that gained one: timing
validation rebuilds the visual timeline unconditionally. -/
theorem C9_counterexample :
    hasKey cex9 "visual_timeline" = false ∧
      hasKeyJ (normalize_script_response "engaging" 60
        (String.mk (jdumpF 2 (jobj cex9)))) "visual_timeline" = true :=
  ⟨rfl, rfl⟩

/-- C9: for every well-formed artifact dictionary (integer numbers,
escape-free ASCII strings, duplicate-free keys) whose three sections are
already timing-valid, normalizing the `json.dumps` serialization returns
exactly `validate_and_enhance_timing` of the artifact, and that result
agrees with the original on every key except `visual_timeline`, which the
normalizer rebuilds. -/
theorem C9_roundtrip (style : String) (dur : Int) (fd : Nat) (d : List (String × JValue))
    (hwf : wfJ fd (jobj d) = true) (hnoop : wfTimingNoOp d = true) :
    normalize_script_response style dur (String.mk (jdumpF fd (jobj d)))
        = validate_and_enhance_timing (jobj d) ∧
      ∀ k, k ≠ "visual_timeline" →
        pyGetJ (validate_and_enhance_timing (jobj d)) k = pyGet d k := by
  obtain ⟨fd1, rfl⟩ : ∃ f1, fd = f1 + 1 := by
    cases fd with
    | zero => simp [wfJ] at hwf
    | succ n => exact ⟨n, rfl⟩
  have hstrip := pyStrip_jobj_dump fd1 d
  have hparse := jparse_jdump (fd1 + 1) (jobj d) hwf
  constructor
  · simp only [normalize_script_response, hstrip, hparse]
  · have hsplit := hnoop
    unfold wfTimingNoOp at hsplit
    simp only [Bool.and_eq_true] at hsplit
    obtain ⟨⟨⟨hH, hI⟩, hE⟩, hM⟩ := hsplit
    have hne : d.isEmpty = false := by
      unfold sectionNoOp at hH
      cases hh : dictGet d "hook" with
      | none => simp [hh] at hH
      | some v =>
        cases d with
        | nil => simp [dictGet] at hh
        | cons p r => rfl
    have hmd : ∃ md, pyGetD d "metadata" (jobj []) = jobj md := by
      unfold metadataShapeOk at hM
      cases hm : dictGet d "metadata" with
      | none => exact ⟨[], by simp [pyGetD, hm]⟩
      | some v =>
        simp only [hm] at hM
        cases v with
        | jobj md => exact ⟨md, by simp [pyGetD, hm]⟩
        | jnull => simp at hM
        | jbool b => simp at hM
        | jnum n => simp at hM
        | jstr s => simp at hM
        | jarr xs => simp at hM
    rcases hmd with ⟨md, hmd⟩
    have hr1 := runSection_noop d "hook" 0 hH
    have hr2 := runSection_noop d "intro" (effDurOf d "hook") hI
    have hr3 := runSection_noop d "explainer" (effDurOf d "hook" + effDurOf d "intro") hE
    have hview : validate_and_enhance_timing (jobj d) =
        jobj (create_enhanced_visual_timeline d (pyGetD md "total_duration" (jnum 60))) := by
      simp only [validate_and_enhance_timing, hne, Bool.false_eq_true, if_false, hmd,
        zero_add, hr1, hr2, hr3]
    rw [hview]
    intro k hk
    have hcel := celt_preserve d (pyGetD md "total_duration" (jnum 60)) k hk
    simp only [pyGetD] at hcel
    simp only [pyGetJ, pyGet, pyGetD, hcel]

set_option maxRecDepth 4000 in
theorem C9_roundtrip_witness :
    wfJ 5 (jobj wit9) = true ∧ wfTimingNoOp wit9 = true ∧
      normalize_script_response "engaging" 60 (String.mk (jdumpF 5 (jobj wit9)))
        = validate_and_enhance_timing (jobj wit9) :=
  ⟨rfl, rfl, (C9_roundtrip "engaging" 60 5 wit9 rfl rfl).1⟩

end XToScript
